import Mathlib

/-!
Verification development for the mail-aggregation backend.

The definitions below are a shallow embedding of the TypeScript source:
the Prisma-backed mirror store is a list of rows, repository calls are
pure functions on that list, machine integers are `Nat`, JavaScript
`null`/`undefined` is `Option`, and fallible operations return `Except`
or `Option`.  External services (IMAP server, Microsoft Graph, the
mailparser library, node crypto primitives) are modelled as explicit
state values or function parameters of the embedded operations.
-/

/-! ## Generic list helpers (JS Array/String operations) -/

namespace JsUtil

/-- Boolean test that list `p` is an initial segment of `l`
(helper for the substring test behind JS String.includes). -/
def leadsWith : List Char → List Char → Bool
  | [], _ => true
  | _ :: _, [] => false
  | a :: as, b :: bs => a == b && leadsWith as bs

/-- JS toLowerCase, ASCII (the library String.toLower is well-founded
recursion over positions and does not reduce in the kernel). -/
def toLowerStr (s : String) : String := String.mk (s.data.map Char.toLower)

/-- JS toUpperCase, ASCII. -/
def toUpperStr (s : String) : String := String.mk (s.data.map Char.toUpper)

/-- Boolean substring occurrence test on character lists. -/
def occursIn (needle : List Char) : List Char → Bool
  | [] => leadsWith needle []
  | b :: bs => leadsWith needle (b :: bs) || occursIn needle bs

/-- JS `hay.includes(needle)`. -/
def strIncludes (hay needle : String) : Bool :=
  occursIn needle.data hay.data

/-- JS `s.split(sep)` for a one-character separator, on character lists. -/
def splitOnCharAux (sep : Char) : List Char → List Char → List (List Char)
  | [], acc => [acc.reverse]
  | c :: cs, acc =>
    if c == sep then acc.reverse :: splitOnCharAux sep cs []
    else splitOnCharAux sep cs (c :: acc)

/-- JS `s.split(sep)` for a one-character separator. -/
def splitOnChar (sep : Char) (s : List Char) : List (List Char) :=
  splitOnCharAux sep s []

/-- JS `Math.min(...xs)` for the nonempty lists produced by chunking
(JS yields Infinity on an empty spread; the sync code never builds an
empty chunk, and the model returns 0 there). -/
def listMin : List Nat → Nat
  | [] => 0
  | [x] => x
  | x :: y :: xs => min x (listMin (y :: xs))

/-- JS `Math.max(...xs)`, 0 for the empty list. -/
def listMax : List Nat → Nat
  | [] => 0
  | [x] => x
  | x :: y :: xs => max x (listMax (y :: xs))

/-- Insert into a descending-sorted list (helper for `sortDesc`). -/
def insertDesc (x : Nat) : List Nat → List Nat
  | [] => [x]
  | y :: ys => if y ≤ x then x :: y :: ys else y :: insertDesc x ys

/-- JS `xs.sort((a, b) => b - a)`: a descending sort of the same
elements (insertion sort; JS leaves the comparison order unspecified,
the code only relies on the result being a descending permutation). -/
def sortDesc : List Nat → List Nat
  | [] => []
  | x :: xs => insertDesc x (sortDesc xs)

/-- Fuel-driven chunking of a list into consecutive pieces of size `cs`
(the fuel only bounds recursion; with `1 ≤ cs` and enough fuel the
pieces concatenate back to the input). -/
def chunksOfFuel (cs : Nat) : Nat → List α → List (List α)
  | _, [] => []
  | 0, xs => [xs]
  | fuel + 1, x :: xs => (x :: xs).take cs :: chunksOfFuel cs fuel ((x :: xs).drop cs)

/-- Chunk a list into consecutive pieces of size `cs` (fuel `xs.length`
always suffices when `1 ≤ cs`). -/
def chunksOf (cs : Nat) (xs : List α) : List (List α) :=
  chunksOfFuel cs xs.length xs

end JsUtil

/-! ## Data model (Prisma schema: Email and EmailAccount rows) -/

/-- One `Email` row of the mirror store.  `deletedAt ≠ none` is the
soft-delete tombstone.  Dates are modelled as `Nat` instants; the
Prisma-generated cuid primary key is the `id` field (the sync engine
never reads it back, hand-built rows in theorems pick explicit ids). -/
structure EmailRow where
  id : String
  accountId : String
  uid : Nat
  messageId : Option String
  fromAddr : String
  toAddrs : List String
  subject : String
  body : String
  htmlBody : Option String
  folder : String
  isRead : Bool
  receivedAt : Nat
  deletedAt : Option Nat
deriving Repr, DecidableEq

/-- One `EmailAccount` row.  `lastFetchedUid` and `lastSyncedAt` are
nullable in the schema, hence `Option`. -/
structure EmailAccount where
  id : String
  userId : String
  email : String
  provider : String
  password : Option String
  accessToken : Option String
  refreshToken : Option String
  flags : List String
  lastFetchedUid : Option Nat
  lastSyncedAt : Option Nat
deriving Repr, DecidableEq

/-! ## EmailsRepository (src/emails/emails.repository.ts) -/

namespace EmailsRepository

/-- Predicate for the unique `(accountId, uid, folder)` triple. -/
def matchesTriple (accountId : String) (uid : Nat) (folder : String) (e : EmailRow) : Bool :=
  e.accountId == accountId && e.uid == uid && e.folder == folder

/-- `existsByUidAndAccount(uid, folder, accountId)`: a `count` over all
rows matching the triple — no `deletedAt` filter, so tombstoned rows
count as existing. -/
def existsByUidAndAccount (db : List EmailRow) (uid : Nat) (folder : String)
    (accountId : String) : Bool :=
  db.any (fun e => e.uid == uid && e.folder == folder && e.accountId == accountId)

/-- `getHighestUid(accountId, folder)`: `findFirst` ordered by `uid`
descending over rows matching `(accountId, folder)` — again with no
`deletedAt` filter — then `result?.uid || 0`. -/
def getHighestUid (db : List EmailRow) (accountId folder : String) : Nat :=
  (JsUtil.sortDesc ((db.filter
    (fun e => e.accountId == accountId && e.folder == folder)).map (·.uid))).headD 0

/-- Modelled from the spec: `getGlobalHighestUid(accountId)` is called by
the Graph branch of `SyncService.syncFolder` but its body is not among
the provided sources; §4.7.4 of the spec describes it as MAX(uid) over
the account's mirror rows (synthetic-UID base). -/
def getGlobalHighestUid (db : List EmailRow) (accountId : String) : Nat :=
  ((db.filter (fun e => e.accountId == accountId)).map (·.uid)).foldr max 0

/-- `createMany(data, skipDuplicates: true)`: append each row whose
`(accountId, uid, folder)` triple is absent (from the store and from
rows inserted earlier in the same batch), skip the rest; returns the
new store and the inserted count. -/
def createMany (db : List EmailRow) (rows : List EmailRow) : List EmailRow × Nat :=
  match rows with
  | [] => (db, 0)
  | r :: rest =>
    if existsByUidAndAccount db r.uid r.folder r.accountId then
      createMany db rest
    else
      let (db', n) := createMany (db ++ [r]) rest
      (db', n + 1)

/-- `findById(id)`: `findUnique` on the id with the `deletedAt: null`
filter, so tombstoned rows are invisible here. -/
def findById (db : List EmailRow) (id : String) : Option EmailRow :=
  db.find? (fun e => e.id == id && e.deletedAt == none)

end EmailsRepository

/-! ## Claim C4 — getHighestUid versus the tombstone filter -/

/-- Spec-worded lookup for C4: MAX(uid) over the non-tombstoned
(`deletedAt = null`) rows of the `(accountId, folder)` pair, 0 when
there are no such rows. -/
def specHighestUidNonTombstoned (db : List EmailRow) (accountId folder : String) : Nat :=
  ((db.filter (fun e =>
    e.accountId == accountId && e.folder == folder && e.deletedAt == none)).map
      (·.uid)).foldr max 0

/-- Spec-worded lookup used by the amended C4: MAX(uid) over all rows of
the pair, tombstoned included, 0 when there are none. -/
def specHighestUidAllRows (db : List EmailRow) (accountId folder : String) : Nat :=
  ((db.filter (fun e =>
    e.accountId == accountId && e.folder == folder)).map (·.uid)).foldr max 0

/-- A mirror whose only row for the pair is tombstoned. -/
def c4Db : List EmailRow :=
  [{ id := "e1", accountId := "a", uid := 5, messageId := none, fromAddr := "x@example.com",
     toAddrs := [], subject := "s", body := "b", htmlBody := none, folder := "INBOX",
     isRead := false, receivedAt := 1, deletedAt := some 7 }]

theorem insertDesc_headD (x : Nat) (l : List Nat) :
    (JsUtil.insertDesc x l).headD 0 = max x (l.headD 0) := by
  cases l with
  | nil => simp [JsUtil.insertDesc]
  | cons y ys =>
    by_cases h : y ≤ x
    · simp [JsUtil.insertDesc, h, Nat.max_eq_left h]
    · simp [JsUtil.insertDesc, h, Nat.max_eq_right (Nat.le_of_not_le h)]

theorem sortDesc_headD (l : List Nat) :
    (JsUtil.sortDesc l).headD 0 = l.foldr max 0 := by
  induction l with
  | nil => rfl
  | cons x xs ih =>
    show (JsUtil.insertDesc x (JsUtil.sortDesc xs)).headD 0 = max x (xs.foldr max 0)
    rw [insertDesc_headD, ih]

/-- Claim C4 counterexample: on a mirror whose only row for the pair is
soft-deleted with uid 5, `getHighestUid` returns 5 while MAX(uid) over
the non-tombstoned rows is 0, so the claimed equation fails. -/
theorem c4_counterexample :
    EmailsRepository.getHighestUid c4Db "a" "INBOX" = 5 ∧
    specHighestUidNonTombstoned c4Db "a" "INBOX" = 0 ∧
    EmailsRepository.getHighestUid c4Db "a" "INBOX" ≠
      specHighestUidNonTombstoned c4Db "a" "INBOX" := by
  refine ⟨by decide, by decide, by decide⟩

/-- Claim C4 (amended): `getHighestUid(accountId, folder)` returns
MAX(uid) over ALL Message rows of the pair — tombstoned rows included,
because the query has no `deletedAt` filter — and 0 when the pair has
no rows at all. -/
theorem c4_amended_getHighestUid_max_all_rows (db : List EmailRow) (accountId folder : String) :
    EmailsRepository.getHighestUid db accountId folder =
      specHighestUidAllRows db accountId folder := by
  unfold EmailsRepository.getHighestUid specHighestUidAllRows
  rw [sortDesc_headD]

/-! ## Constants (common/constants/email-sync.constants.ts) -/

namespace EmailSyncConstants

/-- `STANDARD_FOLDERS` exactly as defined in the constants module: six
keys, with no `IMPORTANT` or `STARRED` entry. -/
def STANDARD_FOLDERS : List (String × String) :=
  [("INBOX", "INBOX"), ("SENT", "Sent"), ("DRAFTS", "Drafts"),
   ("TRASH", "Trash"), ("SPAM", "Spam"), ("ARCHIVE", "Archive")]

/-- JS property access `STANDARD_FOLDERS.key`: the value when the key is
declared, JS `undefined` (here `none`) otherwise. -/
def standardFolder (key : String) : Option String :=
  (STANDARD_FOLDERS.find? (fun p => p.1 == key)).map (·.2)

/-- `FOLDER_MAPPINGS`, with the `STANDARD_FOLDERS` references resolved to
their string values as TypeScript does at module load. -/
def FOLDER_MAPPINGS : List (String × List (String × String)) :=
  [("gmail",
    [("[Gmail]/Sent Mail", "Sent"), ("[Gmail]/Drafts", "Drafts"),
     ("[Gmail]/Trash", "Trash"), ("[Gmail]/Spam", "Spam"),
     ("[Gmail]/All Mail", "Archive")]),
   ("outlook",
    [("Sent Items", "Sent"), ("Deleted Items", "Trash"), ("Junk Email", "Spam")]),
   ("yahoo",
    [("Sent", "Sent"), ("Draft", "Drafts"), ("Trash", "Trash"), ("Bulk Mail", "Spam")])]

/-- `SYNC_SETTINGS.CHUNK_SIZE`. -/
def CHUNK_SIZE : Nat := 50

end EmailSyncConstants

/-! ## FolderNormalizerUtil (sync/utils/folder-normalizer.util.ts, the
version carrying the specialUse / flags parameters and the Important and
Starred heuristics). -/

namespace FolderNormalizerUtil

open EmailSyncConstants

/-- `specialUse.replace(/^\\/, '')`: strip one leading backslash. -/
def stripLeadingBackslash (s : String) : String :=
  match s.data with
  | '\\' :: rest => String.mk rest
  | _ => s

/-- The RFC 6154 special-use switch.  `some r` means the switch returned
the JS value `r`; `none` means execution fell through to the next rule
(a falsy — absent or empty — specialUse, or no matching case). -/
def specialUseFolder (specialUse : Option String) : Option (Option String) :=
  match specialUse with
  | none => none
  | some su =>
    if su == "" then none
    else
      let use := JsUtil.toLowerStr (stripLeadingBackslash su)
      if use == "inbox" then some (standardFolder "INBOX")
      else if use == "sent" then some (standardFolder "SENT")
      else if use == "drafts" then some (standardFolder "DRAFTS")
      else if use == "trash" then some (standardFolder "TRASH")
      else if use == "junk" || use == "spam" then some (standardFolder "SPAM")
      else if use == "archive" then some (standardFolder "ARCHIVE")
      else none

/-- The Graph display-name equality checks (`sentitems`, `deleteditems`,
…).  Same return convention as `specialUseFolder`. -/
def graphNameFolder (folderPath : String) : Option (Option String) :=
  let nameLower := JsUtil.toLowerStr folderPath
  if nameLower == "inbox" then some (standardFolder "INBOX")
  else if nameLower == "sentitems" || nameLower == "sent items" then some (standardFolder "SENT")
  else if nameLower == "deleteditems" || nameLower == "deleted items" then some (standardFolder "TRASH")
  else if nameLower == "junkemail" || nameLower == "junk email" then some (standardFolder "SPAM")
  else if nameLower == "archive" then some (standardFolder "ARCHIVE")
  else if nameLower == "drafts" then some (standardFolder "DRAFTS")
  else if nameLower == "conversation history" then some (some "Conversation History")
  else if nameLower == "outbox" then some (some "Outbox")
  else none

/-- The IMAP-flag checks.  A passed-but-empty flag set still enters the
block (a JS Set is truthy); `none` argument is an absent parameter. -/
def flagsFolder (flags : Option (List String)) : Option (Option String) :=
  match flags with
  | none => none
  | some fl =>
    if fl.contains "\\Sent" || fl.contains "\\SentMail" then some (standardFolder "SENT")
    else if fl.contains "\\Drafts" then some (standardFolder "DRAFTS")
    else if fl.contains "\\Trash" then some (standardFolder "TRASH")
    else if fl.contains "\\Junk" || fl.contains "\\Spam" then some (standardFolder "SPAM")
    else if fl.contains "\\Archive" then some (standardFolder "ARCHIVE")
    else if fl.contains "\\Flagged" || fl.contains "\\Starred" then some (standardFolder "STARRED")
    else none

/-- The provider-scoped exact-path table lookup. -/
def providerMappingFolder (provider : Option String) (folderPath : String) :
    Option (Option String) :=
  match provider with
  | none => none
  | some p =>
    if p == "" then none
    else
      match (FOLDER_MAPPINGS.find? (fun q => q.1 == JsUtil.toLowerStr p)).map (·.2) with
      | none => none
      | some mapping =>
        match (mapping.find? (fun q => q.1 == folderPath)).map (·.2) with
        | none => none
        | some v => if v == "" then none else some (some v)

/-- The case-insensitive substring heuristics; this stage always
returns.  The `important` and `starred`/`flagged` branches return
`STANDARD_FOLDERS.IMPORTANT` and `STANDARD_FOLDERS.STARRED`, keys the
constants module does not declare, hence JS `undefined` (`none`). -/
def heuristicFolder (folderPath : String) : Option String :=
  let lowerPath := JsUtil.toLowerStr folderPath
  if JsUtil.strIncludes lowerPath "sent" then standardFolder "SENT"
  else if JsUtil.strIncludes lowerPath "draft" then standardFolder "DRAFTS"
  else if JsUtil.strIncludes lowerPath "trash" || JsUtil.strIncludes lowerPath "deleted" ||
      JsUtil.strIncludes lowerPath "bin" then standardFolder "TRASH"
  else if JsUtil.strIncludes lowerPath "spam" || JsUtil.strIncludes lowerPath "junk" then
    standardFolder "SPAM"
  else if JsUtil.strIncludes lowerPath "archive" || JsUtil.strIncludes lowerPath "all mail" then
    standardFolder "ARCHIVE"
  else if JsUtil.strIncludes lowerPath "important" then standardFolder "IMPORTANT"
  else if JsUtil.strIncludes lowerPath "starred" || JsUtil.strIncludes lowerPath "flagged" then
    standardFolder "STARRED"
  else some folderPath

/-- `normalizeFolderName(folderPath, provider, specialUse?, flags?)`:
the rule chain in source order; the result is the returned JS value
(`none` models `undefined`). -/
def normalizeFolderName (folderPath : String) (provider : Option String)
    (specialUse : Option String) (flags : Option (List String)) : Option String :=
  if JsUtil.toUpperStr folderPath == "INBOX" then standardFolder "INBOX"
  else
    match specialUseFolder specialUse with
    | some r => r
    | none =>
      match graphNameFolder folderPath with
      | some r => r
      | none =>
        match flagsFolder flags with
        | some r => r
        | none =>
          match providerMappingFolder provider folderPath with
          | some r => r
          | none => heuristicFolder folderPath

/-- `shouldSyncFolder` (the exclusion list of the long version). -/
def shouldSyncFolder (folderPath : String) : Bool :=
  let lowerPath := JsUtil.toLowerStr folderPath
  !(["[gmail]/all mail", "notes", "contacts", "calendar", "tasks", "journal",
     "sync issues", "local failures", "server failures", "yammer root"].any
      (fun pattern => JsUtil.strIncludes lowerPath pattern))

end FolderNormalizerUtil

/-! ## Claim C6 — the Important heuristic -/

/-- Claim C6 (code bug): the folder path `Priority Important` reaches the
`important` substring heuristic — it is not INBOX, carries no specialUse
or flags, matches no Graph name, no provider-table entry and none of the
earlier substrings — yet `normalizeFolderName` evaluates to JS
`undefined` rather than the canonical name `Important`, because
`STANDARD_FOLDERS` declares no `IMPORTANT` key. -/
theorem c6_important_returns_undefined :
    FolderNormalizerUtil.normalizeFolderName "Priority Important" (some "unknown") none none
      = none ∧
    EmailSyncConstants.standardFolder "IMPORTANT" = none ∧
    (EmailSyncConstants.STANDARD_FOLDERS.map (·.2)).contains "Important" = false := by
  refine ⟨by decide, by decide, by decide⟩

/-! ## GraphClientUtil (sync/utils/graph-client.util.ts) -/

/-- The fields of a Graph API message that the client and parser read.
Absent JSON members are `none` / empty; instants are `Nat`. -/
structure GraphMessage where
  id : String
  receivedDateTime : Nat
  internetMessageId : Option String
  subject : String
  bodyContent : String
  bodyContentType : String
  fromName : String
  fromAddr : Option String
  toAddrs : List String
  isRead : Bool
  flagStatus : String
  hasAttachments : Bool
deriving Repr, DecidableEq

/-- A Graph `mailFolders` entry as the sync engine uses it. -/
structure GraphFolderInfo where
  id : String
  displayName : String
  wellKnownName : Option String
deriving Repr, DecidableEq

namespace GraphClientUtil

/-- Descending insertion by `receivedDateTime` (helper for the server's
`$orderby=receivedDateTime desc`). -/
def insertRecvDesc (m : GraphMessage) : List GraphMessage → List GraphMessage
  | [] => [m]
  | y :: ys =>
    if y.receivedDateTime ≤ m.receivedDateTime then m :: y :: ys
    else y :: insertRecvDesc m ys

/-- Sort by `receivedDateTime` descending. -/
def sortRecvDesc : List GraphMessage → List GraphMessage
  | [] => []
  | m :: ms => insertRecvDesc m (sortRecvDesc ms)

/-- The Graph service side of `fetchNewMessages`: the page sequence the
`@odata.nextLink` chain serves for
`$filter=receivedDateTime ge t&$orderby=receivedDateTime desc&$top=50`. -/
def serverPages (folderMsgs : List GraphMessage) (t : Nat) : List (List GraphMessage) :=
  JsUtil.chunksOf 50 (sortRecvDesc (folderMsgs.filter (fun m => t ≤ m.receivedDateTime)))

/-- The `while (url)` accumulation loop of `fetchNewMessages`: append
each page, then `if (messages.length > 500) break` — the check runs
AFTER the page was already appended. -/
def fetchNewMessagesGo : List (List GraphMessage) → List GraphMessage → List GraphMessage
  | [], msgs => msgs
  | page :: rest, msgs =>
    let msgs' := msgs ++ page
    if 500 < msgs'.length then msgs'
    else fetchNewMessagesGo rest msgs'

/-- `fetchNewMessages(folderId, lastModifiedDateTime)` against a folder
whose full message list is `folderMsgs`. -/
def fetchNewMessages (folderMsgs : List GraphMessage) (lastModifiedDateTime : Nat) :
    List GraphMessage :=
  fetchNewMessagesGo (serverPages folderMsgs lastModifiedDateTime) []

end GraphClientUtil

/-! ## Claim C7 — the Graph delta fetch -/

theorem chunksOfFuel_join (cs : Nat) :
    ∀ (fuel : Nat) (xs : List α), (JsUtil.chunksOfFuel cs fuel xs).join = xs := by
  intro fuel
  induction fuel with
  | zero => intro xs; cases xs <;> simp [JsUtil.chunksOfFuel]
  | succ fuel ih =>
    intro xs
    cases xs with
    | nil => simp [JsUtil.chunksOfFuel]
    | cons x l => simp [JsUtil.chunksOfFuel, ih]

theorem chunksOfFuel_length_le (cs : Nat) (hcs : 1 ≤ cs) :
    ∀ (fuel : Nat) (xs : List α), xs.length ≤ fuel →
      ∀ c ∈ JsUtil.chunksOfFuel cs fuel xs, c.length ≤ cs := by
  intro fuel
  induction fuel with
  | zero =>
    intro xs hlen c hc
    cases xs with
    | nil => simp [JsUtil.chunksOfFuel] at hc
    | cons x l => simp at hlen
  | succ fuel ih =>
    intro xs hlen c hc
    cases xs with
    | nil => simp [JsUtil.chunksOfFuel] at hc
    | cons x l =>
      simp only [JsUtil.chunksOfFuel, List.mem_cons] at hc
      rcases hc with rfl | hc
      · simpa using List.length_take_le cs (x :: l)
      · refine ih _ ?_ c hc
        have hd : (List.drop cs (x :: l)).length = (x :: l).length - cs := by
          simp
        rw [hd]
        have hx : (x :: l).length = l.length + 1 := by simp
        omega

theorem insertRecvDesc_length (x : GraphMessage) (l : List GraphMessage) :
    (GraphClientUtil.insertRecvDesc x l).length = l.length + 1 := by
  induction l with
  | nil => rfl
  | cons y ys ih =>
    by_cases hy : y.receivedDateTime ≤ x.receivedDateTime
    · simp [GraphClientUtil.insertRecvDesc, hy]
    · simp [GraphClientUtil.insertRecvDesc, hy, ih]

theorem sortRecvDesc_length (l : List GraphMessage) :
    (GraphClientUtil.sortRecvDesc l).length = l.length := by
  induction l with
  | nil => rfl
  | cons x xs ih => simp [GraphClientUtil.sortRecvDesc, insertRecvDesc_length, ih]

theorem mem_insertRecvDesc {m x : GraphMessage} {l : List GraphMessage}
    (h : m ∈ GraphClientUtil.insertRecvDesc x l) : m = x ∨ m ∈ l := by
  induction l with
  | nil => simpa [GraphClientUtil.insertRecvDesc] using h
  | cons y ys ih =>
    by_cases hy : y.receivedDateTime ≤ x.receivedDateTime
    · simpa [GraphClientUtil.insertRecvDesc, hy, or_comm, or_left_comm] using h
    · simp only [GraphClientUtil.insertRecvDesc, if_neg hy, List.mem_cons] at h
      rcases h with rfl | h
      · exact Or.inr (List.mem_cons_self _ _)
      · rcases ih h with rfl | hm
        · exact Or.inl rfl
        · exact Or.inr (List.mem_cons_of_mem _ hm)

theorem mem_sortRecvDesc {m : GraphMessage} {l : List GraphMessage}
    (h : m ∈ GraphClientUtil.sortRecvDesc l) : m ∈ l := by
  induction l with
  | nil => simpa [GraphClientUtil.sortRecvDesc] using h
  | cons x xs ih =>
    rcases mem_insertRecvDesc h with rfl | hm
    · exact List.mem_cons_self _ _
    · exact List.mem_cons_of_mem _ (ih hm)

theorem mem_fetchNewMessagesGo {m : GraphMessage} :
    ∀ (pages : List (List GraphMessage)) (acc : List GraphMessage),
      m ∈ GraphClientUtil.fetchNewMessagesGo pages acc → m ∈ acc ∨ m ∈ pages.join := by
  intro pages
  induction pages with
  | nil => intro acc h; exact Or.inl (by simpa [GraphClientUtil.fetchNewMessagesGo] using h)
  | cons page rest ih =>
    intro acc h
    simp only [GraphClientUtil.fetchNewMessagesGo] at h
    by_cases hlen : 500 < (acc ++ page).length
    · rw [if_pos hlen] at h
      rcases List.mem_append.1 h with h | h
      · exact Or.inl h
      · exact Or.inr (by simp [h])
    · rw [if_neg hlen] at h
      rcases ih _ h with h | h
      · rcases List.mem_append.1 h with h | h
        · exact Or.inl h
        · exact Or.inr (by simp [h])
      · exact Or.inr (by simp [h])

theorem fetchNewMessagesGo_length_le :
    ∀ (pages : List (List GraphMessage)) (acc : List GraphMessage),
      (∀ p ∈ pages, p.length ≤ 50) → acc.length ≤ 500 →
      (GraphClientUtil.fetchNewMessagesGo pages acc).length ≤ 550 := by
  intro pages
  induction pages with
  | nil => intro acc _ hacc; simpa [GraphClientUtil.fetchNewMessagesGo] using le_trans hacc (by omega)
  | cons page rest ih =>
    intro acc hp hacc
    have hpage : page.length ≤ 50 := hp page (List.mem_cons_self _ _)
    simp only [GraphClientUtil.fetchNewMessagesGo]
    by_cases hlen : 500 < (acc ++ page).length
    · rw [if_pos hlen]
      simp only [List.length_append]
      omega
    · rw [if_neg hlen]
      refine ih _ (fun p hmem => hp p (List.mem_cons_of_mem _ hmem)) ?_
      simpa using Nat.le_of_not_lt hlen

theorem fetchNewMessagesGo_all :
    ∀ (pages : List (List GraphMessage)) (acc : List GraphMessage),
      acc.length + pages.join.length ≤ 500 →
      GraphClientUtil.fetchNewMessagesGo pages acc = acc ++ pages.join := by
  intro pages
  induction pages with
  | nil => intro acc _; simp [GraphClientUtil.fetchNewMessagesGo]
  | cons page rest ih =>
    intro acc hbound
    have hj : (page :: rest).join = page ++ rest.join := by simp
    rw [hj, List.length_append] at hbound
    simp only [GraphClientUtil.fetchNewMessagesGo]
    have hnot : ¬ 500 < (acc ++ page).length := by
      simp only [List.length_append]; omega
    rw [if_neg hnot, ih]
    · rw [hj, List.append_assoc]
    · simp only [List.length_append]; omega

/-- Claim C7 (amended): every message retrieved by `fetchNewMessages`
satisfies `receivedDateTime ≥ lastSyncedAt`; the pagination loop stops
only after the running total EXCEEDS 500, so with the requested page
size of 50 a run retrieves at most 550 — not 500 — messages; and when at
most 500 messages match the filter the pagination is followed to
exhaustion, returning every matching message. -/
theorem c7_amended_fetchNewMessages (folderMsgs : List GraphMessage) (t : Nat) :
    (∀ m ∈ GraphClientUtil.fetchNewMessages folderMsgs t, t ≤ m.receivedDateTime) ∧
    (GraphClientUtil.fetchNewMessages folderMsgs t).length ≤ 550 ∧
    ((folderMsgs.filter (fun m => t ≤ m.receivedDateTime)).length ≤ 500 →
      GraphClientUtil.fetchNewMessages folderMsgs t =
        GraphClientUtil.sortRecvDesc (folderMsgs.filter (fun m => t ≤ m.receivedDateTime))) := by
  refine ⟨?_, ?_, ?_⟩
  · intro m hm
    rcases mem_fetchNewMessagesGo _ _ hm with h | h
    · simp at h
    · rw [GraphClientUtil.serverPages, JsUtil.chunksOf, chunksOfFuel_join] at h
      have := List.of_mem_filter (mem_sortRecvDesc h)
      simpa using this
  · refine fetchNewMessagesGo_length_le _ _ ?_ (by simp)
    intro p hp
    exact chunksOfFuel_length_le 50 (by omega) _ _ (le_refl _) p hp
  · intro hle
    have hlen : (GraphClientUtil.sortRecvDesc
        (folderMsgs.filter (fun m => t ≤ m.receivedDateTime))).length ≤ 500 := by
      calc (GraphClientUtil.sortRecvDesc _).length
          = (folderMsgs.filter (fun m => t ≤ m.receivedDateTime)).length := by
            exact sortRecvDesc_length _
        _ ≤ 500 := hle
    rw [GraphClientUtil.fetchNewMessages, fetchNewMessagesGo_all]
    · rw [GraphClientUtil.serverPages, JsUtil.chunksOf, chunksOfFuel_join]
      simp
    · rw [GraphClientUtil.serverPages, JsUtil.chunksOf, chunksOfFuel_join]
      simpa using hlen

/-- A Graph message used by the C7 counterexample. -/
def c7Msg : GraphMessage :=
  { id := "g1", receivedDateTime := 5, internetMessageId := some "<m@x>",
    subject := "s", bodyContent := "b", bodyContentType := "text",
    fromName := "N", fromAddr := some "n@x.com", toAddrs := ["u@y.com"],
    isRead := false, flagStatus := "notFlagged", hasAttachments := false }

set_option maxRecDepth 40000 in
/-- Claim C7 counterexample: with 550 matching messages on the folder
(11 full pages of 50), a single `fetchNewMessages` run retrieves all
550 of them — the `length > 500` break fires only after the total has
already passed 500 — refuting the claimed hard bound of 500. -/
theorem c7_counterexample :
    (GraphClientUtil.fetchNewMessages (List.replicate 550 c7Msg) 0).length = 550 ∧
    500 < (GraphClientUtil.fetchNewMessages (List.replicate 550 c7Msg) 0).length := by
  refine ⟨by decide, by decide⟩

/-- Closed instantiation of `c7_amended_fetchNewMessages` discharging its
inner hypothesis at a concrete folder. -/
theorem c7_amended_fetchNewMessages_witness :
    (∀ m ∈ GraphClientUtil.fetchNewMessages [c7Msg] 2, 2 ≤ m.receivedDateTime) ∧
    (GraphClientUtil.fetchNewMessages [c7Msg] 2).length ≤ 550 ∧
    GraphClientUtil.fetchNewMessages [c7Msg] 2 =
      GraphClientUtil.sortRecvDesc ([c7Msg].filter (fun m => 2 ≤ m.receivedDateTime)) :=
  ⟨(c7_amended_fetchNewMessages [c7Msg] 2).1,
   (c7_amended_fetchNewMessages [c7Msg] 2).2.1,
   (c7_amended_fetchNewMessages [c7Msg] 2).2.2 (by decide)⟩

/-! ## SearchService (src/search/search.service.ts) -/

/-- Shared surface-error type (Nest exceptions the services throw). -/
inductive HttpException where
  | notFound (msg : String)
  | badRequest (msg : Option String)
  | internalError (msg : String)
deriving Repr, DecidableEq

namespace SearchService

/-- The result envelope both search endpoints build. -/
structure SearchPage where
  data : List EmailRow
  total : Nat
  page : Nat
  limit : Nat
  totalPages : Nat
deriving Repr, DecidableEq

/-- JS `Math.ceil(total / limit)` on naturals (the services never pass
limit 0; the model returns 0 there). -/
def jsCeilDiv (total limit : Nat) : Nat :=
  if limit == 0 then 0 else (total + limit - 1) / limit

/-- JS whitespace trim over the character list (the library
`String.trim` does not reduce in the kernel). -/
def jsTrim (s : String) : String :=
  let ws := fun (c : Char) => c == ' ' || c == '\t' || c == '\n' || c == '\r'
  String.mk (((s.data.dropWhile ws).reverse.dropWhile ws).reverse)

/-- `searchEmails(userId, query, page, limit)`: the raw-SQL full-text
query.  `matchFts query e` abstracts the `email_fts` join together with
`search_vector @@ plainto_tsquery(query)` (Postgres-side semantics);
the `ts_rank`/`receivedAt` ORDER BY is abstracted as the row order of
the store.  The WHERE clause keeps `ea.userId = userId` and
`e.deletedAt IS NULL`. -/
def searchEmails (matchFts : String → EmailRow → Bool) (accounts : List EmailAccount)
    (db : List EmailRow) (userId query : String) (page limit : Nat) : SearchPage :=
  let skip := (page - 1) * limit
  if jsTrim query == "" then
    { data := [], total := 0, page := page, limit := limit, totalPages := 0 }
  else
    let rows := db.filter (fun e =>
      accounts.any (fun a => a.id == e.accountId && a.userId == userId) &&
      e.deletedAt == none && matchFts query e)
    { data := (rows.drop skip).take limit, total := rows.length, page := page,
      limit := limit, totalPages := jsCeilDiv rows.length limit }

/-- `searchBySender(userId, sender, page, limit)`: Prisma `findMany` /
`count` filtered by the account relation and a case-insensitive
substring on `from` — with NO `deletedAt` condition (the `receivedAt`
ORDER BY is abstracted as the row order of the store). -/
def searchBySender (accounts : List EmailAccount) (db : List EmailRow)
    (userId sender : String) (page limit : Nat) : SearchPage :=
  let skip := (page - 1) * limit
  let rows := db.filter (fun e =>
    accounts.any (fun a => a.id == e.accountId && a.userId == userId) &&
    JsUtil.strIncludes (JsUtil.toLowerStr e.fromAddr) (JsUtil.toLowerStr sender))
  { data := (rows.drop skip).take limit, total := rows.length, page := page,
    limit := limit, totalPages := jsCeilDiv rows.length limit }

end SearchService

/-! ## Claim C8 — tombstones in search results -/

/-- Account used by the C8 failing input. -/
def c8Account : EmailAccount :=
  { id := "a1", userId := "u1", email := "owner@gmail.com", provider := "gmail",
    password := some "enc", accessToken := none, refreshToken := none,
    flags := ["INBOX"], lastFetchedUid := some 10, lastSyncedAt := some 100 }

/-- A soft-deleted message from alice, owned by u1. -/
def c8Row : EmailRow :=
  { id := "e8", accountId := "a1", uid := 3, messageId := some "<m8@x>",
    fromAddr := "Alice Doe <alice@x.com>", toAddrs := ["owner@gmail.com"],
    subject := "hello", body := "world", htmlBody := none, folder := "INBOX",
    isRead := false, receivedAt := 50, deletedAt := some 60 }

/-- Claim C8 (code bug): `searchBySender` has no `deletedAt` filter, so
a tombstoned message is returned in the result page and counted in the
total; `searchEmails` (the raw-SQL path, which does filter
`deletedAt IS NULL`) correctly excludes the same row even when the FTS
predicate matches it. -/
theorem c8_searchBySender_returns_tombstone :
    c8Row.deletedAt ≠ none ∧
    (SearchService.searchBySender [c8Account] [c8Row] "u1" "alice" 1 20).data = [c8Row] ∧
    (SearchService.searchBySender [c8Account] [c8Row] "u1" "alice" 1 20).total = 1 ∧
    (SearchService.searchEmails (fun _ _ => true) [c8Account] [c8Row] "u1" "alice" 1 20).data
      = [] ∧
    (SearchService.searchEmails (fun _ _ => true) [c8Account] [c8Row] "u1" "alice" 1 20).total
      = 0 := by
  refine ⟨by decide, by decide, by decide, by decide, by decide⟩

/-! ## EmailsService (src/emails/emails.service.ts) -/

namespace EmailsService

/-- `findOne(userId, id)`: fetch by id (404 when absent), fetch by id a
second time (the source comment announces verifying that the email
belongs to the user via the account relationship, but no comparison
against `userId` is ever made), and return the row. -/
def findOne (db : List EmailRow) (userId id : String) : Except HttpException EmailRow :=
  match EmailsRepository.findById db id with
  | none => .error (.notFound "Email not found")
  | some email =>
    match EmailsRepository.findById db id with
    | none => .error (.notFound "Email not found")
    | some _ => .ok email

end EmailsService

/-! ## Claim C9 — cross-user access to a message -/

/-- Account owned by user u2 (not the caller). -/
def c9Account : EmailAccount :=
  { id := "a9", userId := "u2", email := "victim@gmail.com", provider := "gmail",
    password := some "enc", accessToken := none, refreshToken := none,
    flags := ["INBOX"], lastFetchedUid := some 4, lastSyncedAt := some 100 }

/-- A live message belonging to u2's account. -/
def c9Row : EmailRow :=
  { id := "e9", accountId := "a9", uid := 4, messageId := some "<m9@x>",
    fromAddr := "Bob <bob@x.com>", toAddrs := ["victim@gmail.com"],
    subject := "secret", body := "contents", htmlBody := none, folder := "INBOX",
    isRead := false, receivedAt := 70, deletedAt := none }

/-- Claim C9 (code bug): `findOne` called by user u1 for a message whose
account belongs to u2 returns the message instead of failing with
NotFound — the ownership comparison announced in the source comment is
absent. -/
theorem c9_findOne_ignores_ownership :
    c9Row.accountId = c9Account.id ∧
    c9Account.userId ≠ "u1" ∧
    EmailsService.findOne [c9Row] "u1" "e9" = .ok c9Row := by
  refine ⟨by decide, by decide, rfl⟩

/-! ## EmailAccountsService (email-accounts.service.ts) -/

namespace EmailAccountsService

/-- `ValidationResult` of ImapValidatorUtil. -/
structure ValidationResult where
  success : Bool
  provider : Option String
  error : Option String
deriving Repr, DecidableEq

/-- `UpdateEmailAccountDto` (the update path only reads `appPassword`). -/
structure UpdateEmailAccountDto where
  appPassword : Option String
deriving Repr, DecidableEq

/-- `EmailAccountsRepository.update(id, data)` restricted to the fields
the service's update path writes: set the password when the spread
included one, else apply the empty update. -/
def repoUpdatePassword (accounts : List EmailAccount) (id : String)
    (pw : Option String) : List EmailAccount :=
  accounts.map (fun a =>
    if a.id == id then
      match pw with
      | some p => { a with password := some p }
      | none => a
    else a)

/-- `EmailAccountsService.update(userId, id, updateDto)`.
`validateConnection` performs live IMAP I/O, so it enters the model as
the oracle `validate` (email, appPassword ↦ result); `encrypt` stands
for `EncryptionUtil.encrypt` with its fresh salt and IV (appPassword,
key ↦ ciphertext).  The function returns the service response paired
with the resulting account store; a thrown exception leaves the store
exactly as it was, mirroring that every throw in the source happens
before the repository write. -/
def update (validate : String → String → ValidationResult)
    (encrypt : String → String → String) (encryptionKey : Option String)
    (accounts : List EmailAccount) (userId id : String)
    (updateDto : UpdateEmailAccountDto) :
    Except HttpException EmailAccount × List EmailAccount :=
  match accounts.find? (fun a => a.id == id) with
  | none => (.error (.notFound "Email account not found"), accounts)
  | some account =>
    if account.userId != userId then
      (.error (.notFound "Email account not found"), accounts)
    else
      match updateDto.appPassword with
      | some p =>
        if p == "" then
          -- JS: an empty appPassword is falsy, the validation block is skipped
          let accounts' := repoUpdatePassword accounts id none
          match accounts'.find? (fun a => a.id == id) with
          | some updated => (.ok updated, accounts')
          | none => (.error (.notFound "Email account not found"), accounts')
        else
          let validation := validate account.email p
          if !validation.success then
            (.error (.badRequest validation.error), accounts)
          else
            match encryptionKey with
            | none => (.error (.internalError "ENCRYPTION_KEY not configured"), accounts)
            | some key =>
              let encryptedPassword := encrypt p key
              let accounts' := repoUpdatePassword accounts id (some encryptedPassword)
              match accounts'.find? (fun a => a.id == id) with
              | some updated => (.ok updated, accounts')
              | none => (.error (.notFound "Email account not found"), accounts')
      | none =>
        let accounts' := repoUpdatePassword accounts id none
        match accounts'.find? (fun a => a.id == id) with
        | some updated => (.ok updated, accounts')
        | none => (.error (.notFound "Email account not found"), accounts')

end EmailAccountsService

/-! ## Claim C10 — rejected password update leaves the account intact -/

/-- Claim C10: when the new appPassword fails live IMAP validation, the
update throws BadRequestException carrying the validation error, and the
account store — in particular the previously stored encrypted
password — is returned unchanged: the throw precedes any repository
write. -/
theorem c10_update_invalid_password_rejected
    (validate : String → String → EmailAccountsService.ValidationResult)
    (encrypt : String → String → String) (encryptionKey : Option String)
    (accounts : List EmailAccount) (userId id p : String)
    (account : EmailAccount)
    (hfind : accounts.find? (fun a => a.id == id) = some account)
    (howner : account.userId = userId)
    (hp : p ≠ "")
    (hfail : (validate account.email p).success = false) :
    EmailAccountsService.update validate encrypt encryptionKey accounts userId id
        { appPassword := some p } =
      (.error (.badRequest (validate account.email p).error), accounts) := by
  unfold EmailAccountsService.update
  rw [hfind]
  simp only [howner]
  have hne : (userId != userId) = false := by simp
  rw [hne]
  simp only [Bool.false_eq_true, if_false]
  have hpb : (p == "") = false := by
    simpa using hp
  rw [hpb]
  simp only [Bool.false_eq_true, if_false, hfail]
  rfl

/-- Closed instantiation of `c10_update_invalid_password_rejected` at a
concrete store and a concrete failing validation oracle. -/
theorem c10_update_invalid_password_rejected_witness :
    EmailAccountsService.update
        (fun _ _ => { success := false, provider := some "Gmail",
                      error := some "Authentication failed" })
        (fun pw _ => pw) (some "0123456789abcdef0123456789abcdef")
        [c8Account] "u1" "a1" { appPassword := some "bad pass" } =
      (.error (.badRequest (some "Authentication failed")), [c8Account]) :=
  c10_update_invalid_password_rejected
    (fun _ _ => { success := false, provider := some "Gmail",
                  error := some "Authentication failed" })
    (fun pw _ => pw) (some "0123456789abcdef0123456789abcdef")
    [c8Account] "u1" "a1" "bad pass" c8Account (by decide) (by decide) (by decide) (by decide)


/-! ## Base64 (node Buffer toString base64 / Buffer.from base64) -/

namespace Base64

/-- The base64 alphabet. -/
def alphabet : List Char :=
  "ABCDEFGHIJKLMNOPQRSTUVWXYZabcdefghijklmnopqrstuvwxyz0123456789+/".data

/-- Character for one six-bit group. -/
def sixBitChar (n : Nat) : Char := alphabet.getD n 'A'

/-- Six-bit group for one character. -/
def charSixBit (c : Char) : Nat := alphabet.indexOf c

/-- Base64-encode a byte list (three bytes to four chars, with
trailing-group padding). -/
def encodeChunks : List Nat → List Char
  | [] => []
  | [b1] => [sixBitChar (b1 / 4), sixBitChar (b1 % 4 * 16), '=', '=']
  | [b1, b2] =>
    [sixBitChar (b1 / 4), sixBitChar (b1 % 4 * 16 + b2 / 16),
     sixBitChar (b2 % 16 * 4), '=']
  | b1 :: b2 :: b3 :: rest =>
    sixBitChar (b1 / 4) :: sixBitChar (b1 % 4 * 16 + b2 / 16) ::
    sixBitChar (b2 % 16 * 4 + b3 / 64) :: sixBitChar (b3 % 64) :: encodeChunks rest

/-- Base64-decode a char list (four chars to three bytes, handling the
padded trailing group); `none` on malformed input. -/
def decodeChunks : List Char → Option (List Nat)
  | [] => some []
  | c1 :: c2 :: c3 :: c4 :: rest =>
    if c3 == '=' then
      if rest.isEmpty && c4 == '=' then
        some [charSixBit c1 * 4 + charSixBit c2 / 16]
      else none
    else if c4 == '=' then
      if rest.isEmpty then
        some [charSixBit c1 * 4 + charSixBit c2 / 16,
              charSixBit c2 % 16 * 16 + charSixBit c3 / 4]
      else none
    else
      (decodeChunks rest).map (fun tl =>
        (charSixBit c1 * 4 + charSixBit c2 / 16) ::
        (charSixBit c2 % 16 * 16 + charSixBit c3 / 4) ::
        (charSixBit c3 % 4 * 64 + charSixBit c4) :: tl)
  | _ => none

theorem charSixBit_sixBitChar {n : Nat} (h : n < 64) : charSixBit (sixBitChar n) = n := by
  revert h
  revert n
  decide

theorem sixBitChar_beq_pad_false (n : Nat) : (sixBitChar n == '=') = false := by
  by_cases h : n < 64
  · have hall : ∀ m, m < 64 → (sixBitChar m == '=') = false := by decide
    exact hall n h
  · have hlen : alphabet.length ≤ n := by
      have he : alphabet.length = 64 := by decide
      omega
    unfold sixBitChar
    rw [List.getD_eq_default _ _ hlen]
    decide

theorem sixBitChar_ne_colon (n : Nat) : sixBitChar n ≠ ':' := by
  by_cases h : n < 64
  · have hall : ∀ m, m < 64 → sixBitChar m ≠ ':' := by decide
    exact hall n h
  · have hlen : alphabet.length ≤ n := by
      have he : alphabet.length = 64 := by decide
      omega
    unfold sixBitChar
    rw [List.getD_eq_default _ _ hlen]
    decide

theorem colon_not_mem_encodeChunks : ∀ (bs : List Nat), ':' ∉ encodeChunks bs
  | [] => by simp [encodeChunks]
  | [b1] => by
    simp only [encodeChunks, List.mem_cons, List.not_mem_nil, or_false]
    intro h
    rcases h with h | h | h | h
    · exact sixBitChar_ne_colon _ h.symm
    · exact sixBitChar_ne_colon _ h.symm
    · exact absurd h.symm (by decide)
    · exact absurd h.symm (by decide)
  | [b1, b2] => by
    simp only [encodeChunks, List.mem_cons, List.not_mem_nil, or_false]
    intro h
    rcases h with h | h | h | h
    · exact sixBitChar_ne_colon _ h.symm
    · exact sixBitChar_ne_colon _ h.symm
    · exact sixBitChar_ne_colon _ h.symm
    · exact absurd h.symm (by decide)
  | b1 :: b2 :: b3 :: rest => by
    simp only [encodeChunks, List.mem_cons]
    intro h
    rcases h with h | h | h | h | h
    · exact sixBitChar_ne_colon _ h.symm
    · exact sixBitChar_ne_colon _ h.symm
    · exact sixBitChar_ne_colon _ h.symm
    · exact sixBitChar_ne_colon _ h.symm
    · exact colon_not_mem_encodeChunks rest h

theorem decode_encode : ∀ (bs : List Nat), (∀ b ∈ bs, b < 256) →
    decodeChunks (encodeChunks bs) = some bs
  | [], _ => by decide
  | [b1], h => by
    have h1 : b1 < 256 := h b1 (by simp)
    have e1 : b1 / 4 < 64 := by omega
    have e2 : b1 % 4 * 16 < 64 := by omega
    simp only [encodeChunks, decodeChunks, List.isEmpty_nil, Bool.true_and,
      charSixBit_sixBitChar e1, charSixBit_sixBitChar e2,
      Option.some_inj, List.cons.injEq, and_true, if_true, beq_self_eq_true]
    omega
  | [b1, b2], h => by
    have h1 : b1 < 256 := h b1 (by simp)
    have h2 : b2 < 256 := h b2 (by simp)
    have e1 : b1 / 4 < 64 := by omega
    have e2 : b1 % 4 * 16 + b2 / 16 < 64 := by omega
    have e3 : b2 % 16 * 4 < 64 := by omega
    simp only [encodeChunks, decodeChunks, sixBitChar_beq_pad_false, Bool.false_eq_true,
      if_false, List.isEmpty_nil, if_true, beq_self_eq_true,
      charSixBit_sixBitChar e1, charSixBit_sixBitChar e2,
      charSixBit_sixBitChar e3, Option.some_inj, List.cons.injEq, and_true]
    omega
  | b1 :: b2 :: b3 :: rest, h => by
    have h1 : b1 < 256 := h b1 (by simp)
    have h2 : b2 < 256 := h b2 (by simp)
    have h3 : b3 < 256 := h b3 (by simp)
    have e1 : b1 / 4 < 64 := by omega
    have e2 : b1 % 4 * 16 + b2 / 16 < 64 := by omega
    have e3 : b2 % 16 * 4 + b3 / 64 < 64 := by omega
    have e4 : b3 % 64 < 64 := by omega
    have ih := decode_encode rest (fun b hb => h b (by simp [hb]))
    simp only [encodeChunks, decodeChunks, sixBitChar_beq_pad_false, Bool.false_eq_true,
      if_false, charSixBit_sixBitChar e1, charSixBit_sixBitChar e2,
      charSixBit_sixBitChar e3, charSixBit_sixBitChar e4, ih, Option.map_some, Option.map_some',
      Option.some_inj, List.cons.injEq, and_true]
    omega

end Base64

/-! ## EncryptionUtil (common/utils/encryption.util.ts)

AES-256-GCM is a CTR-mode stream cipher with a GHASH authentication
tag: encryption XORs the plaintext with a keystream determined by
`(key, iv)` and appends a tag over the ciphertext.  The node crypto
primitives (scrypt key derivation, the keystream, the tag) are external
to the repository and enter the model as the `CryptoPrimitives`
parameter; the repository's own work — the `salt:iv:tag:ct` layout,
per-call salt and IV, base64 segment coding, re-deriving the key from
the embedded salt, and the tag check — is modelled exactly. -/

/-- External node-crypto primitives, as deterministic functions. -/
structure CryptoPrimitives where
  scryptSync : String → List Nat → List Nat
  keystream : List Nat → List Nat → Nat → Nat
  authTag : List Nat → List Nat → List Nat → List Nat

/-- XOR a byte list against a keystream starting at index `i`
(the CTR core of AES-GCM encryption and decryption). -/
def xorKeystreamFrom (ks : Nat → Nat) : Nat → List Nat → List Nat
  | _, [] => []
  | i, b :: bs => (b ^^^ ks i) :: xorKeystreamFrom ks (i + 1) bs

/-- JS `segments.join(sep)` for one-character separators. -/
def joinSep (sep : Char) : List (List Char) → List Char
  | [] => []
  | [s] => s
  | s :: rest => s ++ sep :: joinSep sep rest

namespace EncryptionUtil

/-- `encrypt(plaintext, secret)`.  The fresh `randomBytes` salt and IV
are passed in explicitly; `plaintext` is the UTF-8 byte sequence the
cipher consumes.  Returns the `salt:iv:authTag:encryptedData` string
(as its character list) or the thrown error message. -/
def encrypt (cp : CryptoPrimitives) (plaintext : List Nat) (secret : String)
    (salt iv : List Nat) : Except String (List Char) :=
  if secret.length < 32 then
    .error "Encryption secret must be at least 32 characters long"
  else
    let key := cp.scryptSync secret salt
    let encrypted := xorKeystreamFrom (cp.keystream key iv) 0 plaintext
    let authTag := cp.authTag key iv encrypted
    .ok (joinSep ':' [Base64.encodeChunks salt, Base64.encodeChunks iv,
                      Base64.encodeChunks authTag, Base64.encodeChunks encrypted])

/-- `decrypt(encryptedData, secret)`: split on the colon, demand four
segments, base64-decode them, re-derive the key from the embedded salt,
check the GCM tag (the `decipher.final()` throw on mismatch), and XOR
the ciphertext back. -/
def decrypt (cp : CryptoPrimitives) (encryptedData : List Char) (secret : String) :
    Except String (List Nat) :=
  if secret.length < 32 then
    .error "Encryption secret must be at least 32 characters long"
  else
    match JsUtil.splitOnChar ':' encryptedData with
    | [saltB64, ivB64, authTagB64, encrypted] =>
      match Base64.decodeChunks saltB64, Base64.decodeChunks ivB64,
            Base64.decodeChunks authTagB64, Base64.decodeChunks encrypted with
      | some salt, some iv, some authTag, some ct =>
        let key := cp.scryptSync secret salt
        if authTag = cp.authTag key iv ct then
          .ok (xorKeystreamFrom (cp.keystream key iv) 0 ct)
        else
          .error "Unsupported state or unable to authenticate data"
      | _, _, _, _ => .error "Invalid base64 segment"
    | _ => .error "Invalid encrypted data format"

end EncryptionUtil

/-! ## Claim C3 — encrypt-then-decrypt roundtrip -/

theorem splitOnCharAux_no_sep (sep : Char) :
    ∀ (xs acc : List Char), (∀ c ∈ xs, c ≠ sep) →
      JsUtil.splitOnCharAux sep xs acc = [acc.reverse ++ xs] := by
  intro xs
  induction xs with
  | nil => intro acc _; simp [JsUtil.splitOnCharAux]
  | cons c cs ih =>
    intro acc h
    have hc : (c == sep) = false := by
      simp [h c (List.mem_cons_self _ _)]
    simp only [JsUtil.splitOnCharAux, hc, Bool.false_eq_true, if_false]
    rw [ih (c :: acc) (fun x hx => h x (List.mem_cons_of_mem _ hx))]
    simp

theorem splitOnCharAux_append_sep (sep : Char) :
    ∀ (xs rest acc : List Char), (∀ c ∈ xs, c ≠ sep) →
      JsUtil.splitOnCharAux sep (xs ++ sep :: rest) acc =
        (acc.reverse ++ xs) :: JsUtil.splitOnCharAux sep rest [] := by
  intro xs
  induction xs with
  | nil =>
    intro rest acc _
    simp [JsUtil.splitOnCharAux]
  | cons c cs ih =>
    intro rest acc h
    have hc : (c == sep) = false := by
      simp [h c (List.mem_cons_self _ _)]
    rw [List.cons_append]
    simp only [JsUtil.splitOnCharAux, hc, Bool.false_eq_true, if_false]
    rw [ih rest (c :: acc) (fun x hx => h x (List.mem_cons_of_mem _ hx))]
    simp

theorem splitOnChar_joinSep4 (s1 s2 s3 s4 : List Char)
    (h1 : ∀ c ∈ s1, c ≠ ':') (h2 : ∀ c ∈ s2, c ≠ ':')
    (h3 : ∀ c ∈ s3, c ≠ ':') (h4 : ∀ c ∈ s4, c ≠ ':') :
    JsUtil.splitOnChar ':' (joinSep ':' [s1, s2, s3, s4]) = [s1, s2, s3, s4] := by
  have hj : joinSep ':' [s1, s2, s3, s4] = s1 ++ ':' :: (s2 ++ ':' :: (s3 ++ ':' :: s4)) := rfl
  rw [JsUtil.splitOnChar, hj, splitOnCharAux_append_sep ':' s1 _ [] h1,
    splitOnCharAux_append_sep ':' s2 _ [] h2, splitOnCharAux_append_sep ':' s3 _ [] h3,
    splitOnCharAux_no_sep ':' s4 [] h4]
  simp

theorem xorKeystreamFrom_involution (ks : Nat → Nat) :
    ∀ (bs : List Nat) (i : Nat), xorKeystreamFrom ks i (xorKeystreamFrom ks i bs) = bs := by
  intro bs
  induction bs with
  | nil => intro i; rfl
  | cons b rest ih =>
    intro i
    simp only [xorKeystreamFrom, ih]
    congr 1
    exact Nat.xor_cancel_right _ _

theorem xorKeystreamFrom_lt_256 (ks : Nat → Nat) (hks : ∀ j, ks j < 256) :
    ∀ (bs : List Nat) (i : Nat), (∀ b ∈ bs, b < 256) →
      ∀ b ∈ xorKeystreamFrom ks i bs, b < 256 := by
  intro bs
  induction bs with
  | nil => intro i _ b hb; simp [xorKeystreamFrom] at hb
  | cons x rest ih =>
    intro i h b hb
    simp only [xorKeystreamFrom, List.mem_cons] at hb
    rcases hb with rfl | hb
    · have hx : x < 2 ^ 8 := h x (List.mem_cons_self _ _)
      have hk : ks i < 2 ^ 8 := hks i
      exact Nat.xor_lt_two_pow hx hk
    · exact ih (i + 1) (fun y hy => h y (List.mem_cons_of_mem _ hy)) b hb

/-- Claim C3: for every plaintext (as its UTF-8 byte sequence) and
every secret of length at least 32, decrypting the encryption of the
plaintext under the same secret returns the plaintext exactly.  The
external crypto primitives are universally quantified; the only facts
used about them are determinism and the byte range of the keystream
and tag, so the roundtrip rests entirely on the repository's own
layout: fresh salt and IV carried inside the ciphertext, key re-derived
from the embedded salt, matching segment order, and the tag check
passing on an untampered ciphertext. -/
theorem c3_encrypt_decrypt_roundtrip
    (cp : CryptoPrimitives) (plaintext salt iv : List Nat) (secret : String)
    (hsec : 32 ≤ secret.length)
    (hpt : ∀ b ∈ plaintext, b < 256)
    (hsalt : ∀ b ∈ salt, b < 256)
    (hiv : ∀ b ∈ iv, b < 256)
    (hks : ∀ i, cp.keystream (cp.scryptSync secret salt) iv i < 256)
    (htag : ∀ b ∈ cp.authTag (cp.scryptSync secret salt) iv
        (xorKeystreamFrom (cp.keystream (cp.scryptSync secret salt) iv) 0 plaintext),
        b < 256) :
    (EncryptionUtil.encrypt cp plaintext secret salt iv).bind
      (fun enc => EncryptionUtil.decrypt cp enc secret) = .ok plaintext := by
  have hlt : ¬ secret.length < 32 := Nat.not_lt.mpr hsec
  have hct : ∀ b ∈ xorKeystreamFrom (cp.keystream (cp.scryptSync secret salt) iv) 0 plaintext,
      b < 256 :=
    xorKeystreamFrom_lt_256 _ hks plaintext 0 hpt
  have nosep : ∀ (bs : List Nat), ∀ c ∈ Base64.encodeChunks bs, c ≠ ':' := by
    intro bs c hc hcol
    exact Base64.colon_not_mem_encodeChunks bs (hcol ▸ hc)
  simp only [EncryptionUtil.encrypt, hlt, if_false, Except.bind]
  simp only [EncryptionUtil.decrypt, hlt, if_false]
  rw [splitOnChar_joinSep4 _ _ _ _ (nosep salt) (nosep iv) (nosep _) (nosep _)]
  simp only [Base64.decode_encode salt hsalt, Base64.decode_encode iv hiv,
    Base64.decode_encode _ htag, Base64.decode_encode _ hct]
  rw [if_pos trivial, xorKeystreamFrom_involution]

/-- Concrete primitives for the C3 witness. -/
def c3cp : CryptoPrimitives :=
  { scryptSync := fun _ _ => List.replicate 32 7,
    keystream := fun _ _ _ => 171,
    authTag := fun _ _ ct => List.replicate 16 (ct.length % 256) }

/-- A concrete plaintext byte sequence (UTF-8 of a string containing a
colon, exercising the segment layout). -/
def c3pt : List Nat := [104, 101, 58, 33]

/-- Closed instantiation of `c3_encrypt_decrypt_roundtrip` at concrete
primitives, plaintext, secret, salt and IV. -/
theorem c3_encrypt_decrypt_roundtrip_witness :
    (EncryptionUtil.encrypt c3cp c3pt "0123456789abcdef0123456789abcdef" [1, 2, 3] [9]).bind
      (fun enc => EncryptionUtil.decrypt c3cp enc "0123456789abcdef0123456789abcdef") =
      .ok c3pt :=
  c3_encrypt_decrypt_roundtrip c3cp c3pt [1, 2, 3] [9] "0123456789abcdef0123456789abcdef"
    (by decide) (by decide) (by decide) (by decide)
    (fun _ => by change (171 : Nat) < 256; decide) (by decide)

/-! ## IMAP server state and ImapClientUtil (sync/utils/imap-client.util.ts) -/

/-- One message as the IMAP adapter yields it. -/
structure ImapMessage where
  uid : Nat
  flags : List String
  source : String
deriving Repr, DecidableEq

/-- Server-side state of one mailbox: its messages plus the advertised
UIDNEXT. -/
structure ImapFolderState where
  messages : List ImapMessage
  uidNext : Nat
deriving Repr, DecidableEq

namespace ImapClientUtil

/-- `getHighestUid(folder)`: STATUS (UIDNEXT), then
`status.uidNext ? status.uidNext - 1 : 0`. -/
def getHighestUid (folder : ImapFolderState) : Nat :=
  if folder.uidNext == 0 then 0 else folder.uidNext - 1

/-- `fetchEmailsByUid(folder, uidStart, uidEnd)`: the messages whose
UID lies in the inclusive range. -/
def fetchEmailsByUid (folder : ImapFolderState) (uidStart uidEnd : Nat) : List ImapMessage :=
  folder.messages.filter (fun m => uidStart ≤ m.uid && m.uid ≤ uidEnd)

/-- Modelled from the spec: `searchUidsFromStart(folder, startUid)` is
called by the searchUids-based `syncFolder` variant but its body is not
among the provided sources; §4.2 of the spec describes it as the set of
UIDs ≥ startUid actually present in the folder (sparse UID spaces). -/
def searchUidsFromStart (folder : ImapFolderState) (startUid : Nat) : List Nat :=
  (folder.messages.filter (fun m => startUid ≤ m.uid)).map (·.uid)

end ImapClientUtil

/-- The canonical record `EmailParserUtil.parseEmail` produces from raw
RFC 5322 bytes (the mailparser library output, canonicalized). -/
structure ParsedEmailData where
  messageId : Option String
  fromAddr : String
  toAddrs : List String
  subject : String
  body : String
  htmlBody : Option String
  receivedAt : Nat
  flags : List String
deriving Repr, DecidableEq

/-- The type of the external mailparser-backed
`EmailParserUtil.parseEmail(source, flags, uid)`: deterministic, `none`
models a parser throw (the caller logs and skips the message). -/
def ImapParser : Type := String → List String → Nat → Option ParsedEmailData

/-! ## EmailAccountsRepository (sync-state writes used by syncFolder) -/

namespace EmailAccountsRepository

/-- `updateSyncState(id, lastFetchedUid, lastSyncedAt)`: an
unconditional write of both fields (no monotonicity clamp). -/
def updateSyncState (account : EmailAccount) (lastFetchedUid : Nat)
    (lastSyncedAt : Nat) : EmailAccount :=
  { account with lastFetchedUid := some lastFetchedUid, lastSyncedAt := some lastSyncedAt }

/-- `addFolderFlag(id, folder)`: append the folder to the flags array
unless already present. -/
def addFolderFlag (account : EmailAccount) (folder : String) : EmailAccount :=
  if account.flags.contains folder then account
  else { account with flags := account.flags ++ [folder] }

end EmailAccountsRepository

/-! ## imap-providers.config.ts -/

namespace ImapProvidersConfig

/-- `detectProvider(email)`: domain dispatch on `email.split('@')[1]`. -/
def detectProvider (email : String) : Option String :=
  match (JsUtil.splitOnChar '@' email.data).get? 1 with
  | none => none
  | some d =>
    let domain := JsUtil.toLowerStr (String.mk d)
    if domain == "" then none
    else if domain == "gmail.com" then some "gmail"
    else if domain == "outlook.com" || domain == "live.com" then some "outlook"
    else if domain == "hotmail.com" then some "hotmail"
    else if domain == "yahoo.com" then some "yahoo"
    else if domain == "icloud.com" || domain == "me.com" then some "icloud"
    else if domain == "aol.com" then some "aol"
    else none

end ImapProvidersConfig

/-! ## GraphEmailParserUtil (sync/utils/graph-email-parser.util.ts) -/

/-- The record `GraphEmailParserUtil.parseEmail` produces. -/
structure ParsedGraphEmail where
  messageId : String
  fromAddr : String
  toAddrs : List String
  subject : String
  body : String
  htmlBody : String
  flags : List String
  receivedAt : Nat
  hasAttachments : Bool
deriving Repr, DecidableEq

namespace GraphEmailParserUtil

/-- Scanner equivalent of the global regex replace of `<[^>]*>?` by a
space: outside a tag characters pass through, a `<` emits one space and
swallows everything up to the closing `>`. -/
def stripTagsAux : Bool → List Char → List Char
  | _, [] => []
  | true, c :: rest =>
    if c == '>' then stripTagsAux false rest else stripTagsAux true rest
  | false, c :: rest =>
    if c == '<' then ' ' :: stripTagsAux true rest else c :: stripTagsAux false rest

/-- The `\s+` to single-space collapse (ASCII whitespace); the boolean
records whether the previous output character closed a whitespace run. -/
def collapseWs : Bool → List Char → List Char
  | _, [] => []
  | prev, c :: rest =>
    if c == ' ' || c == '\t' || c == '\n' || c == '\r' then
      if prev then collapseWs true rest else ' ' :: collapseWs true rest
    else c :: collapseWs false rest

/-- `stripHtml(html)`: tag strip, whitespace collapse, trim. -/
def stripHtml (html : String) : String :=
  if html == "" then ""
  else SearchService.jsTrim (String.mk (collapseWs false (stripTagsAux false html.data)))

/-- `GraphEmailParserUtil.parseEmail(message)`; absent JSON members are
the empty string / `none`, matching the `||` coalescing of the source. -/
def parseEmail (message : GraphMessage) : ParsedGraphEmail :=
  let fromStr :=
    match message.fromAddr with
    | some addr =>
      if addr == "" then "Unknown Sender"
      else SearchService.jsTrim
        ((if message.fromName == "" then "" else message.fromName) ++ " <" ++ addr ++ ">")
    | none => "Unknown Sender"
  let content := message.bodyContent
  let contentType := if message.bodyContentType == "" then "text" else message.bodyContentType
  let (textBody, htmlBody) :=
    if JsUtil.toLowerStr contentType == "html" then (stripHtml content, content)
    else (content, "<div>" ++ content ++ "</div>")
  let flags :=
    (if message.isRead then ["\\Seen"] else []) ++
    (if message.flagStatus == "flagged" then ["\\Flagged"] else [])
  { messageId :=
      match message.internetMessageId with
      | some s => if s == "" then message.id else s
      | none => message.id,
    fromAddr := fromStr,
    toAddrs := message.toAddrs,
    subject := if message.subject == "" then "(No Subject)" else message.subject,
    body := textBody,
    htmlBody := htmlBody,
    flags := flags,
    receivedAt := message.receivedDateTime,
    hasAttachments := message.hasAttachments }

end GraphEmailParserUtil

/-! ## SyncService.syncFolder (both variants) -/

/-- What one `syncFolder` call leaves behind: the mirror store, the
account row after `updateSyncState`/`addFolderFlag`, and the returned
`SyncResult` numbers. -/
structure SyncOutcome where
  db : List EmailRow
  account : EmailAccount
  emailsSynced : Nat
  highestUid : Nat
deriving Repr, DecidableEq

namespace SyncService

/-- The per-message loop shared by both IMAP variants: iterate the
fetched chunk in reverse, skip when `existsByUidFolderAndAccount` finds
the triple (tombstones included, the db is the one at chunk start),
skip messages the parser throws on, and accumulate rows for the batch
insert.  The cuid primary key Prisma would generate is irrelevant to
the engine and left empty. -/
def accumulateEmails (parse : ImapParser) (accountId normalizedFolder : String)
    (db : List EmailRow) : List ImapMessage → List EmailRow
  | [] => []
  | m :: rest =>
    if EmailsRepository.existsByUidAndAccount db m.uid normalizedFolder accountId then
      accumulateEmails parse accountId normalizedFolder db rest
    else
      match parse m.source m.flags m.uid with
      | none => accumulateEmails parse accountId normalizedFolder db rest
      | some parsed =>
        { id := "", accountId := accountId, uid := m.uid, messageId := parsed.messageId,
          fromAddr := parsed.fromAddr, toAddrs := parsed.toAddrs, subject := parsed.subject,
          body := parsed.body, htmlBody := parsed.htmlBody, folder := normalizedFolder,
          isRead := parsed.flags.contains "\\Seen", receivedAt := parsed.receivedAt,
          deletedAt := none } :: accumulateEmails parse accountId normalizedFolder db rest

/-- The `while (currentUid >= startUid)` range-chunk loop of the src
variant, as fuel recursion.  With `1 ≤ chunkSize` every iteration
lowers `currentUid` by at least one, so the fuel `highestUid + 1` the
caller passes always suffices; with chunkSize 0 the source loops
forever and the model stops at fuel exhaustion.  Returns the new store
and `totalSynced`. -/
def syncLoop (parse : ImapParser) (accountId normalizedFolder : String)
    (server : ImapFolderState) (chunkSize startUid : Nat) :
    Nat → Nat → List EmailRow → List EmailRow × Nat
  | 0, _, db => (db, 0)
  | fuel + 1, currentUid, db =>
    if currentUid < startUid then (db, 0)
    else
      let chunkStartUid := max (currentUid - chunkSize + 1) startUid
      let messages := ImapClientUtil.fetchEmailsByUid server chunkStartUid currentUid
      let (db', n) :=
        if 0 < messages.length then
          let emailsToCreate :=
            accumulateEmails parse accountId normalizedFolder db messages.reverse
          if 0 < emailsToCreate.length then EmailsRepository.createMany db emailsToCreate
          else (db, 0)
        else (db, 0)
      let (db'', rest) :=
        syncLoop parse accountId normalizedFolder server chunkSize startUid fuel
          (chunkStartUid - 1) db'
      (db'', n + rest)

/-- `SyncService.syncFolder` of src/sync/sync.service.ts (the IMAP-only
variant): normalize first, read the mirror watermark, STATUS the
folder, early-return when nothing is newer, otherwise run the chunk
loop newest-first and write the sync state.  Connection, password
decryption and raw parsing are external (`parse`, `server`,
`specialUse`/`folderFlags` metadata, wall clock `now`).  `none` models
the run aborting because the folder normalizer produced JS undefined
(Prisma rejects the undefined folder argument). -/
def syncFolder (parse : ImapParser) (account : EmailAccount) (server : ImapFolderState)
    (folder : String) (specialUse : Option String) (folderFlags : Option (List String))
    (chunkSize : Nat) (db : List EmailRow) (now : Nat) : Option SyncOutcome :=
  let provider := ImapProvidersConfig.detectProvider account.email
  match FolderNormalizerUtil.normalizeFolderName folder provider specialUse folderFlags with
  | none => none
  | some normalizedFolder =>
    let lastUid := EmailsRepository.getHighestUid db account.id normalizedFolder
    let startUid := lastUid + 1
    let highestUid := ImapClientUtil.getHighestUid server
    if highestUid < startUid then
      some { db := db, account := account, emailsSynced := 0, highestUid := lastUid }
    else
      let (db', totalSynced) :=
        syncLoop parse account.id normalizedFolder server chunkSize startUid
          (highestUid + 1) highestUid db
      let account' := EmailAccountsRepository.addFolderFlag
        (EmailAccountsRepository.updateSyncState account highestUid now) folder
      some { db := db', account := account', emailsSynced := totalSynced,
             highestUid := highestUid }

/-- One chunk of the searchUids-based variant: `Math.min`/`Math.max`
over the chunk UIDs, a UID-range fetch, then the shared per-message
loop and the duplicate-safe batch insert. -/
def processChunk (parse : ImapParser) (accountId normalizedFolder : String)
    (server : ImapFolderState) (chunkUids : List Nat) (db : List EmailRow) :
    List EmailRow × Nat :=
  let chunkStart := JsUtil.listMin chunkUids
  let chunkEnd := JsUtil.listMax chunkUids
  let messages := ImapClientUtil.fetchEmailsByUid server chunkStart chunkEnd
  if 0 < messages.length then
    let emailsToCreate := accumulateEmails parse accountId normalizedFolder db messages.reverse
    if 0 < emailsToCreate.length then EmailsRepository.createMany db emailsToCreate
    else (db, 0)
  else (db, 0)

/-- The `for (let i = 0; i < sortedUids.length; i += chunkSize)` loop. -/
def processChunks (parse : ImapParser) (accountId normalizedFolder : String)
    (server : ImapFolderState) : List (List Nat) → List EmailRow → List EmailRow × Nat
  | [], db => (db, 0)
  | c :: cs, db =>
    let (db', n) := processChunk parse accountId normalizedFolder server c db
    let (db'', m) := processChunks parse accountId normalizedFolder server cs db'
    (db'', n + m)

/-- The IMAP branch of the `syncFolder` variant that enumerates present
UIDs with `searchUidsFromStart`, sorts them descending and chunks them
(the variant carrying the Microsoft Graph branch). -/
def syncFolderV2 (parse : ImapParser) (account : EmailAccount) (server : ImapFolderState)
    (folder : String) (specialUse : Option String) (folderFlags : Option (List String))
    (chunkSize : Nat) (db : List EmailRow) (now : Nat) : Option SyncOutcome :=
  let provider := (ImapProvidersConfig.detectProvider account.email).getD "unknown"
  match FolderNormalizerUtil.normalizeFolderName folder (some provider) specialUse folderFlags with
  | none => none
  | some normalizedFolder =>
    let lastUid := EmailsRepository.getHighestUid db account.id normalizedFolder
    let startUid := lastUid + 1
    let existingUids := ImapClientUtil.searchUidsFromStart server startUid
    if existingUids.isEmpty then
      some { db := db, account := account, emailsSynced := 0, highestUid := lastUid }
    else
      let sortedUids := JsUtil.sortDesc existingUids
      let highestUid := sortedUids.headD 0
      let (db', totalSynced) :=
        processChunks parse account.id normalizedFolder server
          (JsUtil.chunksOf chunkSize sortedUids) db
      let account' := EmailAccountsRepository.addFolderFlag
        (EmailAccountsRepository.updateSyncState account highestUid now) folder
      some { db := db', account := account', emailsSynced := totalSynced,
             highestUid := highestUid }

/-- Rows the Graph branch builds: each message gets the next synthetic
UID (`currentHighestUid++` starting from
`max(account.lastFetchedUid || 0, globalMaxUid)`), with no
per-message existence check. -/
def buildGraphRows (accountId normalizedFolder : String) :
    Nat → List GraphMessage → List EmailRow
  | _, [] => []
  | start, msg :: rest =>
    let parsed := GraphEmailParserUtil.parseEmail msg
    { id := "", accountId := accountId, uid := start + 1,
      messageId := some parsed.messageId, fromAddr := parsed.fromAddr,
      toAddrs := parsed.toAddrs, subject := parsed.subject, body := parsed.body,
      htmlBody := some parsed.htmlBody, folder := normalizedFolder,
      isRead := parsed.flags.contains "\\Seen", receivedAt := parsed.receivedAt,
      deletedAt := none } :: buildGraphRows accountId normalizedFolder (start + 1) rest

/-- The Microsoft Graph branch of `syncFolder`: locate the folder by
display name, fetch by `receivedDateTime ge (lastSyncedAt || epoch)`,
assign synthetic UIDs from
`max(account.lastFetchedUid || 0, getGlobalHighestUid)`, batch insert,
and write the sync state.  `graphServer` maps a Graph folder id to the
folder's full message list; OAuth refresh is upstream of this branch
and external to it. -/
def syncFolderGraph (folders : List GraphFolderInfo)
    (graphServer : String → List GraphMessage) (account : EmailAccount)
    (folder : String) (db : List EmailRow) (now : Nat) : Option SyncOutcome :=
  match folders.find? (fun f => f.displayName == folder) with
  | none =>
    some { db := db, account := account, emailsSynced := 0,
           highestUid := max (account.lastFetchedUid.getD 0)
             (EmailsRepository.getGlobalHighestUid db account.id) }
  | some matchedFolder =>
    let lastSyncedAt := account.lastSyncedAt.getD 0
    let messages := GraphClientUtil.fetchNewMessages (graphServer matchedFolder.id) lastSyncedAt
    if messages.isEmpty then
      some { db := db, account := account, emailsSynced := 0,
             highestUid := max (account.lastFetchedUid.getD 0)
               (EmailsRepository.getGlobalHighestUid db account.id) }
    else
      match FolderNormalizerUtil.normalizeFolderName matchedFolder.displayName
          (some "outlook") matchedFolder.wellKnownName none with
      | none => none
      | some normalizedFolder =>
        let globalMaxUid := EmailsRepository.getGlobalHighestUid db account.id
        let startHighest := max (account.lastFetchedUid.getD 0) globalMaxUid
        let emailsToCreate := buildGraphRows account.id normalizedFolder startHighest messages
        let currentHighestUid := startHighest + messages.length
        let (db', count) :=
          if 0 < emailsToCreate.length then EmailsRepository.createMany db emailsToCreate
          else (db, 0)
        let account' := EmailAccountsRepository.addFolderFlag
          (EmailAccountsRepository.updateSyncState account currentHighestUid now)
          normalizedFolder
        some { db := db', account := account', emailsSynced := count,
               highestUid := currentHighestUid }

end SyncService

/-! ## Claim C5 — the lastFetchedUid watermark -/

/-- Parser oracle for the concrete sync scenarios: every message
parses. -/
def cParse : ImapParser := fun _ _ uid =>
  some { messageId := some "<m@x>", fromAddr := "a@x.com", toAddrs := ["b@y.com"],
         subject := "s", body := "b", htmlBody := none, receivedAt := uid, flags := [] }

/-- An account whose watermark already reached 100 (a previous INBOX
sync). -/
def c5Account : EmailAccount :=
  { id := "a5", userId := "u5", email := "user@gmail.com", provider := "gmail",
    password := some "enc", accessToken := none, refreshToken := none,
    flags := ["INBOX"], lastFetchedUid := some 100, lastSyncedAt := some 50 }

/-- A Trash folder whose UIDs only reach 5. -/
def c5Server : ImapFolderState :=
  { messages := [{ uid := 5, flags := [], source := "raw5" }], uidNext := 6 }

/-- Claim C5 counterexample: after a sync of a high-UID folder left
`lastFetchedUid = 100`, a successful `syncFolder` of the Trash folder
(server UIDs up to 5, one message synced) stores `lastFetchedUid = 5`:
`updateSyncState` writes the current folder's highest server UID
unconditionally, so the account watermark DECREASES across folders. -/
theorem c5_counterexample :
    (SyncService.syncFolder cParse c5Account c5Server "Trash" none none 50 [] 200).map
        (fun o => (o.emailsSynced, o.account.lastFetchedUid)) = some (1, some 5) ∧
    c5Account.lastFetchedUid = some 100 := by
  refine ⟨by decide, by decide⟩

theorem addFolderFlag_lastFetchedUid (a : EmailAccount) (f : String) :
    (EmailAccountsRepository.addFolderFlag a f).lastFetchedUid = a.lastFetchedUid := by
  unfold EmailAccountsRepository.addFolderFlag
  split <;> rfl

/-- Claim C5 (amended): a `syncFolder` run that finds nothing newer
writes no sync state at all; a run that proceeds stores as
`lastFetchedUid` the synced folder's own highest server UID — at least
the mirror's watermark for that (account, normalized folder), so the
value is non-decreasing per folder — but it is written without any
comparison against the account's previous value, so across folders of
one account `lastFetchedUid` can decrease. -/
theorem c5_amended_lastFetchedUid_per_folder
    (parse : ImapParser) (account : EmailAccount) (server : ImapFolderState)
    (folder : String) (su : Option String) (ff : Option (List String))
    (cs : Nat) (db : List EmailRow) (now : Nat) (nf : String)
    (hnorm : FolderNormalizerUtil.normalizeFolderName folder
        (ImapProvidersConfig.detectProvider account.email) su ff = some nf) :
    (ImapClientUtil.getHighestUid server <
        EmailsRepository.getHighestUid db account.id nf + 1 →
      (SyncService.syncFolder parse account server folder su ff cs db now).map
        (fun o => o.account) = some account) ∧
    (¬ ImapClientUtil.getHighestUid server <
        EmailsRepository.getHighestUid db account.id nf + 1 →
      (SyncService.syncFolder parse account server folder su ff cs db now).map
          (fun o => o.account.lastFetchedUid) =
        some (some (ImapClientUtil.getHighestUid server)) ∧
      EmailsRepository.getHighestUid db account.id nf ≤
        ImapClientUtil.getHighestUid server) := by
  simp only [SyncService.syncFolder]
  rw [hnorm]
  dsimp only
  constructor
  · intro h
    rw [if_pos h]
    rfl
  · intro h
    rw [if_neg h]
    refine ⟨?_, by omega⟩
    rw [Option.map_some', addFolderFlag_lastFetchedUid]
    rfl

/-- Closed instantiation of `c5_amended_lastFetchedUid_per_folder` at the
C5 scenario (the proceeding branch). -/
theorem c5_amended_lastFetchedUid_witness :
    (SyncService.syncFolder cParse c5Account c5Server "Trash" none none 50 [] 200).map
        (fun o => o.account.lastFetchedUid) =
      some (some (ImapClientUtil.getHighestUid c5Server)) ∧
    EmailsRepository.getHighestUid [] c5Account.id "Trash" ≤
      ImapClientUtil.getHighestUid c5Server :=
  (c5_amended_lastFetchedUid_per_folder cParse c5Account c5Server "Trash" none none 50 []
    200 "Trash" (by decide)).2 (by decide)

/-! ## Store-growth lemmas shared by the sync theorems -/

/-- `db'` extends `db`: the sync engine only ever appends rows, and each
appended row's `(accountId, uid, folder)` triple was absent from the
store it was checked against. -/
def StoreExtends (db db' : List EmailRow) : Prop :=
  ∃ ext, db' = db ++ ext ∧
    ∀ r ∈ ext, EmailsRepository.existsByUidAndAccount db r.uid r.folder r.accountId = false

theorem exists_of_mem {db : List EmailRow} {r : EmailRow} (hr : r ∈ db) :
    EmailsRepository.existsByUidAndAccount db r.uid r.folder r.accountId = true := by
  unfold EmailsRepository.existsByUidAndAccount
  rw [List.any_eq_true]
  exact ⟨r, hr, by simp⟩

theorem exists_append_left {db ext : List EmailRow} {u : Nat} {f a : String}
    (h : EmailsRepository.existsByUidAndAccount db u f a = true) :
    EmailsRepository.existsByUidAndAccount (db ++ ext) u f a = true := by
  unfold EmailsRepository.existsByUidAndAccount at h ⊢
  rw [List.any_append, h, Bool.true_or]

theorem exists_false_of_append {db ext : List EmailRow} {u : Nat} {f a : String}
    (h : EmailsRepository.existsByUidAndAccount (db ++ ext) u f a = false) :
    EmailsRepository.existsByUidAndAccount db u f a = false := by
  unfold EmailsRepository.existsByUidAndAccount at h ⊢
  rw [List.any_append] at h
  exact (Bool.or_eq_false_iff.mp h).1

theorem storeExtends_refl (db : List EmailRow) : StoreExtends db db :=
  ⟨[], by simp, by simp⟩

theorem storeExtends_trans {db db1 db2 : List EmailRow}
    (h1 : StoreExtends db db1) (h2 : StoreExtends db1 db2) : StoreExtends db db2 := by
  obtain ⟨e1, rfl, ha1⟩ := h1
  obtain ⟨e2, rfl, ha2⟩ := h2
  refine ⟨e1 ++ e2, by simp, ?_⟩
  intro r hr
  rcases List.mem_append.1 hr with hr | hr
  · exact ha1 r hr
  · exact exists_false_of_append (ha2 r hr)

theorem storeExtends_exists_true {db db' : List EmailRow} (hx : StoreExtends db db')
    {u : Nat} {f a : String}
    (h : EmailsRepository.existsByUidAndAccount db u f a = true) :
    EmailsRepository.existsByUidAndAccount db' u f a = true := by
  obtain ⟨ext, rfl, _⟩ := hx
  exact exists_append_left h

theorem createMany_storeExtends :
    ∀ (rows db : List EmailRow), StoreExtends db (EmailsRepository.createMany db rows).1 := by
  intro rows
  induction rows with
  | nil => intro db; exact storeExtends_refl db
  | cons r rest ih =>
    intro db
    by_cases h : EmailsRepository.existsByUidAndAccount db r.uid r.folder r.accountId = true
    · simpa [EmailsRepository.createMany, h] using ih db
    · have hf : EmailsRepository.existsByUidAndAccount db r.uid r.folder r.accountId = false := by
        simpa using h
      have step : StoreExtends db (db ++ [r]) := ⟨[r], rfl, by simpa using hf⟩
      have tail := ih (db ++ [r])
      simp only [EmailsRepository.createMany, hf, Bool.false_eq_true, if_false]
      exact storeExtends_trans step tail

theorem chunkGuard_storeExtends (db rows : List EmailRow) (b : Bool) :
    StoreExtends db (if b = true then EmailsRepository.createMany db rows else (db, 0)).1 := by
  cases b with
  | false => simpa using storeExtends_refl db
  | true => simpa using createMany_storeExtends rows db

theorem syncLoop_storeExtends (parse : ImapParser) (accountId normalizedFolder : String)
    (server : ImapFolderState) (chunkSize startUid : Nat) :
    ∀ (fuel currentUid : Nat) (db : List EmailRow),
      StoreExtends db
        (SyncService.syncLoop parse accountId normalizedFolder server chunkSize startUid
          fuel currentUid db).1 := by
  intro fuel
  induction fuel with
  | zero => intro currentUid db; exact storeExtends_refl db
  | succ fuel ih =>
    intro currentUid db
    by_cases h : currentUid < startUid
    · simp only [SyncService.syncLoop, if_pos h]
      exact storeExtends_refl db
    · simp only [SyncService.syncLoop, if_neg h]
      refine storeExtends_trans ?_ (ih _ _)
      dsimp only
      split
      · split
        · exact createMany_storeExtends _ db
        · exact storeExtends_refl db
      · exact storeExtends_refl db

theorem processChunk_storeExtends (parse : ImapParser) (accountId normalizedFolder : String)
    (server : ImapFolderState) (chunkUids : List Nat) (db : List EmailRow) :
    StoreExtends db
      (SyncService.processChunk parse accountId normalizedFolder server chunkUids db).1 := by
  unfold SyncService.processChunk
  dsimp only
  split
  · split
    · exact createMany_storeExtends _ db
    · exact storeExtends_refl db
  · exact storeExtends_refl db

theorem processChunks_storeExtends (parse : ImapParser) (accountId normalizedFolder : String)
    (server : ImapFolderState) :
    ∀ (chunks : List (List Nat)) (db : List EmailRow),
      StoreExtends db
        (SyncService.processChunks parse accountId normalizedFolder server chunks db).1 := by
  intro chunks
  induction chunks with
  | nil => intro db; exact storeExtends_refl db
  | cons c cs ih =>
    intro db
    simp only [SyncService.processChunks]
    exact storeExtends_trans (processChunk_storeExtends _ _ _ _ _ _) (ih _)

theorem storeExtends_filter_triple {db db' : List EmailRow} (hx : StoreExtends db db')
    {u : Nat} {f a : String}
    (hex : EmailsRepository.existsByUidAndAccount db u f a = true) :
    db'.filter (fun e => EmailsRepository.matchesTriple a u f e) =
      db.filter (fun e => EmailsRepository.matchesTriple a u f e) := by
  obtain ⟨ext, rfl, habs⟩ := hx
  rw [List.filter_append]
  have hnil : ext.filter (fun e => EmailsRepository.matchesTriple a u f e) = [] := by
    rw [List.filter_eq_nil_iff]
    intro e he hmatch
    have h1 := habs e he
    simp only [EmailsRepository.matchesTriple, Bool.and_eq_true, beq_iff_eq] at hmatch
    rw [hmatch.1.1, hmatch.1.2, hmatch.2] at h1
    rw [hex] at h1
    exact Bool.true_eq_false.mp h1
  rw [hnil, List.append_nil]

/-! ## Claim C2 — tombstones survive resync -/

/-- Claim C2: a Message row `r` with `deletedAt ≠ null` is never
re-inserted by a later `syncFolder` run targeting the same
`(uid, folder, accountId)` triple: the pre-insert
`existsByUidFolderAndAccount` check has no `deletedAt` filter, so the
tombstoned row makes the check true and the message is skipped; the run
returns with the triple's row set — and hence `r` with its non-null
`deletedAt` — exactly as before. -/
theorem c2_tombstones_survive_resync
    (parse : ImapParser) (account : EmailAccount) (server : ImapFolderState)
    (folder : String) (su : Option String) (ff : Option (List String))
    (cs : Nat) (db : List EmailRow) (now : Nat) (r : EmailRow)
    (hr : r ∈ db) (haid : r.accountId = account.id) (hdel : r.deletedAt ≠ none)
    (hnorm : FolderNormalizerUtil.normalizeFolderName folder
        (ImapProvidersConfig.detectProvider account.email) su ff = some r.folder) :
    ∃ o, SyncService.syncFolder parse account server folder su ff cs db now = some o ∧
      r ∈ o.db ∧
      o.db.filter (fun e => EmailsRepository.matchesTriple account.id r.uid r.folder e) =
        db.filter (fun e => EmailsRepository.matchesTriple account.id r.uid r.folder e) := by
  have hex : EmailsRepository.existsByUidAndAccount db r.uid r.folder account.id = true := by
    have h0 := exists_of_mem hr
    rw [haid] at h0
    exact h0
  simp only [SyncService.syncFolder]
  rw [hnorm]
  dsimp only
  by_cases hc : ImapClientUtil.getHighestUid server <
      EmailsRepository.getHighestUid db account.id r.folder + 1
  · rw [if_pos hc]
    exact ⟨_, rfl, hr, rfl⟩
  · rw [if_neg hc]
    have hx := syncLoop_storeExtends parse account.id r.folder server cs
      (EmailsRepository.getHighestUid db account.id r.folder + 1)
      (ImapClientUtil.getHighestUid server + 1) (ImapClientUtil.getHighestUid server) db
    refine ⟨_, rfl, ?_, ?_⟩
    · obtain ⟨ext, heq, _⟩ := hx
      dsimp only
      rw [heq]
      exact List.mem_append_left _ hr
    · exact storeExtends_filter_triple hx hex

/-- A tombstoned INBOX row for the C2 witness. -/
def c2Row : EmailRow :=
  { id := "e2", accountId := "a2", uid := 102, messageId := some "<m2@x>",
    fromAddr := "c@x.com", toAddrs := ["d@y.com"], subject := "old", body := "old",
    htmlBody := none, folder := "INBOX", isRead := true, receivedAt := 40,
    deletedAt := some 90 }

/-- The account owning the C2 row. -/
def c2Account : EmailAccount :=
  { id := "a2", userId := "u2", email := "user2@gmail.com", provider := "gmail",
    password := some "enc", accessToken := none, refreshToken := none,
    flags := ["INBOX"], lastFetchedUid := some 102, lastSyncedAt := some 95 }

/-- An INBOX whose server still holds the tombstoned message plus one
newer message. -/
def c2Server : ImapFolderState :=
  { messages := [{ uid := 102, flags := [], source := "raw102" },
                 { uid := 103, flags := [], source := "raw103" }], uidNext := 104 }

/-- Closed instantiation of `c2_tombstones_survive_resync`: re-syncing
the INBOX over a mirror holding the tombstoned row leaves the triple's
row set unchanged. -/
theorem c2_tombstones_survive_resync_witness :
    ∃ o, SyncService.syncFolder cParse c2Account c2Server "INBOX" none none 50 [c2Row] 200
        = some o ∧
      c2Row ∈ o.db ∧
      o.db.filter (fun e => EmailsRepository.matchesTriple c2Account.id c2Row.uid c2Row.folder e) =
        [c2Row].filter (fun e => EmailsRepository.matchesTriple c2Account.id c2Row.uid c2Row.folder e) :=
  c2_tombstones_survive_resync cParse c2Account c2Server "INBOX" none none 50 [c2Row] 200
    c2Row (by decide) (by decide) (by decide) (by decide)

/-! ## Membership and maximum utilities for the C1 development -/

theorem le_foldr_max {x : Nat} : ∀ {l : List Nat}, x ∈ l → x ≤ l.foldr max 0 := by
  intro l
  induction l with
  | nil => intro h; simp at h
  | cons y ys ih =>
    intro h
    rcases List.mem_cons.1 h with rfl | h
    · exact Nat.le_max_left _ _
    · exact Nat.le_trans (ih h) (Nat.le_max_right _ _)

theorem foldr_max_append (l1 l2 : List Nat) :
    (l1 ++ l2).foldr max 0 = max (l1.foldr max 0) (l2.foldr max 0) := by
  induction l1 with
  | nil => simp
  | cons x xs ih => simp [ih, Nat.max_assoc]

theorem getHighestUid_eq_foldr (db : List EmailRow) (a f : String) :
    EmailsRepository.getHighestUid db a f =
      ((db.filter (fun e => e.accountId == a && e.folder == f)).map (·.uid)).foldr max 0 := by
  unfold EmailsRepository.getHighestUid
  rw [sortDesc_headD]

theorem uid_le_getHighestUid {db : List EmailRow} {r : EmailRow} {a f : String}
    (hr : r ∈ db) (haid : r.accountId = a) (hf : r.folder = f) :
    r.uid ≤ EmailsRepository.getHighestUid db a f := by
  rw [getHighestUid_eq_foldr]
  refine le_foldr_max (List.mem_map.2 ⟨r, ?_, rfl⟩)
  exact List.mem_filter.2 ⟨hr, by simp [haid, hf]⟩

theorem getHighestUid_mono {db db' : List EmailRow} (hx : StoreExtends db db')
    (a f : String) :
    EmailsRepository.getHighestUid db a f ≤ EmailsRepository.getHighestUid db' a f := by
  obtain ⟨ext, rfl, _⟩ := hx
  rw [getHighestUid_eq_foldr, getHighestUid_eq_foldr, List.filter_append, List.map_append,
    foldr_max_append]
  exact Nat.le_max_left _ _

theorem row_of_exists {db : List EmailRow} {u : Nat} {f a : String}
    (h : EmailsRepository.existsByUidAndAccount db u f a = true) :
    ∃ r ∈ db, r.uid = u ∧ r.folder = f ∧ r.accountId = a := by
  unfold EmailsRepository.existsByUidAndAccount at h
  obtain ⟨r, hr, hb⟩ := List.any_eq_true.1 h
  simp only [Bool.and_eq_true, beq_iff_eq] at hb
  exact ⟨r, hr, hb.1.1, hb.1.2, hb.2⟩

theorem exists_of_fields {db : List EmailRow} {r : EmailRow} (hr : r ∈ db) {u : Nat}
    {f a : String} (h1 : r.uid = u) (h2 : r.folder = f) (h3 : r.accountId = a) :
    EmailsRepository.existsByUidAndAccount db u f a = true := by
  unfold EmailsRepository.existsByUidAndAccount
  rw [List.any_eq_true]
  exact ⟨r, hr, by simp [h1, h2, h3]⟩

theorem mem_insertDescNat {m x : Nat} {l : List Nat} :
    m ∈ JsUtil.insertDesc x l ↔ m = x ∨ m ∈ l := by
  induction l with
  | nil => simp [JsUtil.insertDesc]
  | cons y ys ih =>
    by_cases hy : y ≤ x
    · simp [JsUtil.insertDesc, hy]
    · simp only [JsUtil.insertDesc, if_neg hy, List.mem_cons, ih]
      tauto

theorem mem_sortDescNat {m : Nat} {l : List Nat} : m ∈ JsUtil.sortDesc l ↔ m ∈ l := by
  induction l with
  | nil => simp [JsUtil.sortDesc]
  | cons x xs ih => simp [JsUtil.sortDesc, mem_insertDescNat, ih]

theorem chunksOfFuel_ne_nil {cs : Nat} (hcs : 1 ≤ cs) :
    ∀ (fuel : Nat) (xs : List α), ∀ c ∈ JsUtil.chunksOfFuel cs fuel xs, c ≠ [] := by
  intro fuel
  induction fuel with
  | zero =>
    intro xs c hc
    cases xs with
    | nil => simp [JsUtil.chunksOfFuel] at hc
    | cons x l =>
      simp only [JsUtil.chunksOfFuel, List.mem_singleton] at hc
      subst hc
      simp
  | succ fuel ih =>
    intro xs c hc
    cases xs with
    | nil => simp [JsUtil.chunksOfFuel] at hc
    | cons x l =>
      simp only [JsUtil.chunksOfFuel, List.mem_cons] at hc
      rcases hc with rfl | hc
      · obtain ⟨k, rfl⟩ := Nat.exists_eq_add_of_le hcs
        simp [List.take_succ_cons]
      · exact ih _ c hc

theorem listMin_le_of_mem {u : Nat} : ∀ {c : List Nat}, u ∈ c → JsUtil.listMin c ≤ u := by
  intro c
  induction c with
  | nil => intro h; simp at h
  | cons x xs ih =>
    intro h
    cases xs with
    | nil =>
      simp only [List.mem_singleton] at h
      subst h
      exact Nat.le_refl _
    | cons y ys =>
      rcases List.mem_cons.1 h with rfl | h
      · exact Nat.min_le_left _ _
      · exact Nat.le_trans (Nat.min_le_right _ _) (ih h)

theorem le_listMax_of_mem {u : Nat} : ∀ {c : List Nat}, u ∈ c → u ≤ JsUtil.listMax c := by
  intro c
  induction c with
  | nil => intro h; simp at h
  | cons x xs ih =>
    intro h
    cases xs with
    | nil =>
      simp only [List.mem_singleton] at h
      subst h
      exact Nat.le_refl _
    | cons y ys =>
      rcases List.mem_cons.1 h with rfl | h
      · exact Nat.le_max_left _ _
      · exact Nat.le_trans (ih h) (Nat.le_max_right _ _)

theorem le_listMin {s : Nat} : ∀ {c : List Nat}, (∀ u ∈ c, s ≤ u) → c ≠ [] →
    s ≤ JsUtil.listMin c := by
  intro c
  induction c with
  | nil => intro _ h; exact absurd rfl h
  | cons x xs ih =>
    intro h _
    cases xs with
    | nil => exact h x (List.mem_singleton_self _)
    | cons y ys =>
      refine Nat.le_min.2 ⟨h x (List.mem_cons_self _ _), ?_⟩
      exact ih (fun u hu => h u (List.mem_cons_of_mem _ hu)) (by simp)

theorem mem_searchUids_of {server : ImapFolderState} {m : ImapMessage} {s : Nat}
    (hm : m ∈ server.messages) (hs : s ≤ m.uid) :
    m.uid ∈ ImapClientUtil.searchUidsFromStart server s := by
  unfold ImapClientUtil.searchUidsFromStart
  exact List.mem_map.2 ⟨m, List.mem_filter.2 ⟨hm, by simp [hs]⟩, rfl⟩

theorem searchUids_ge {server : ImapFolderState} {u s : Nat}
    (h : u ∈ ImapClientUtil.searchUidsFromStart server s) : s ≤ u := by
  unfold ImapClientUtil.searchUidsFromStart at h
  obtain ⟨m, hm, rfl⟩ := List.mem_map.1 h
  have := (List.mem_filter.1 hm).2
  simpa using this

theorem mem_fetch_of {server : ImapFolderState} {m : ImapMessage} {lo hi : Nat}
    (hm : m ∈ server.messages) (h1 : lo ≤ m.uid) (h2 : m.uid ≤ hi) :
    m ∈ ImapClientUtil.fetchEmailsByUid server lo hi := by
  unfold ImapClientUtil.fetchEmailsByUid
  exact List.mem_filter.2 ⟨hm, by simp [h1, h2]⟩

theorem of_mem_fetch {server : ImapFolderState} {m : ImapMessage} {lo hi : Nat}
    (h : m ∈ ImapClientUtil.fetchEmailsByUid server lo hi) :
    m ∈ server.messages ∧ lo ≤ m.uid ∧ m.uid ≤ hi := by
  unfold ImapClientUtil.fetchEmailsByUid at h
  have h2 := (List.mem_filter.1 h).2
  simp only [Bool.and_eq_true, decide_eq_true_eq] at h2
  exact ⟨(List.mem_filter.1 h).1, h2.1, h2.2⟩

/-! ## Chunk-processing lemmas for the C1 development -/

theorem accumulateEmails_nil (parse : ImapParser) (aid nf : String) (db : List EmailRow) :
    ∀ (msgs : List ImapMessage),
      (∀ m ∈ msgs, EmailsRepository.existsByUidAndAccount db m.uid nf aid = true ∨
        parse m.source m.flags m.uid = none) →
      SyncService.accumulateEmails parse aid nf db msgs = [] := by
  intro msgs
  induction msgs with
  | nil => intro _; rfl
  | cons m rest ih =>
    intro h
    have hrest := ih (fun x hx => h x (List.mem_cons_of_mem _ hx))
    rcases h m (List.mem_cons_self _ _) with hex | hpn
    · simp [SyncService.accumulateEmails, hex, hrest]
    · by_cases hex : EmailsRepository.existsByUidAndAccount db m.uid nf aid = true
      · simp [SyncService.accumulateEmails, hex, hrest]
      · simp only [SyncService.accumulateEmails, hex, Bool.false_eq_true, if_false]
        rw [hpn]
        exact hrest

theorem accumulateEmails_covers (parse : ImapParser) (aid nf : String) (db : List EmailRow) :
    ∀ (msgs : List ImapMessage) (m : ImapMessage), m ∈ msgs →
      parse m.source m.flags m.uid ≠ none →
      EmailsRepository.existsByUidAndAccount db m.uid nf aid = false →
      ∃ row ∈ SyncService.accumulateEmails parse aid nf db msgs,
        row.uid = m.uid ∧ row.folder = nf ∧ row.accountId = aid := by
  intro msgs
  induction msgs with
  | nil => intro m hm; simp at hm
  | cons x rest ih =>
    intro m hm hp hex
    rcases List.mem_cons.1 hm with rfl | hm
    · rw [SyncService.accumulateEmails, hex]
      simp only [Bool.false_eq_true, if_false]
      match hq : parse m.source m.flags m.uid with
      | none => exact absurd hq hp
      | some parsed =>
        refine ⟨_, List.mem_cons_self _ _, rfl, rfl, rfl⟩
    · rw [SyncService.accumulateEmails]
      obtain ⟨row, hrow, hprops⟩ := ih m hm hp hex
      by_cases hx : EmailsRepository.existsByUidAndAccount db x.uid nf aid = true
      · rw [hx]
        simp only [if_true]
        exact ⟨row, hrow, hprops⟩
      · rw [Bool.eq_false_iff.2 hx]
        simp only [Bool.false_eq_true, if_false]
        match parse x.source x.flags x.uid with
        | none => exact ⟨row, hrow, hprops⟩
        | some parsed => exact ⟨row, List.mem_cons_of_mem _ hrow, hprops⟩

theorem createMany_exists_of_row :
    ∀ (rows db : List EmailRow) (u : Nat) (f a : String),
      (∃ row ∈ rows, row.uid = u ∧ row.folder = f ∧ row.accountId = a) →
      EmailsRepository.existsByUidAndAccount (EmailsRepository.createMany db rows).1 u f a
        = true := by
  intro rows
  induction rows with
  | nil => intro db u f a h; simp at h
  | cons r rest ih =>
    intro db u f a h
    obtain ⟨row, hrow, h1, h2, h3⟩ := h
    rcases List.mem_cons.1 hrow with rfl | hrow
    · by_cases hx : EmailsRepository.existsByUidAndAccount db row.uid row.folder row.accountId
          = true
      · have hx2 : EmailsRepository.existsByUidAndAccount db u f a = true := by
          rw [← h1, ← h2, ← h3]; exact hx
        simp only [EmailsRepository.createMany, hx, if_true]
        exact storeExtends_exists_true (createMany_storeExtends rest db) hx2
      · rw [EmailsRepository.createMany, Bool.eq_false_iff.2 hx]
        simp only [Bool.false_eq_true, if_false]
        have hmem : EmailsRepository.existsByUidAndAccount (db ++ [row]) u f a = true :=
          exists_of_fields (List.mem_append_right _ (List.mem_singleton_self _)) h1 h2 h3
        exact storeExtends_exists_true (createMany_storeExtends rest (db ++ [row])) hmem
    · by_cases hx : EmailsRepository.existsByUidAndAccount db r.uid r.folder r.accountId = true
      · simp only [EmailsRepository.createMany, hx, if_true]
        exact ih db u f a ⟨row, hrow, h1, h2, h3⟩
      · rw [EmailsRepository.createMany, Bool.eq_false_iff.2 hx]
        simp only [Bool.false_eq_true, if_false]
        exact ih (db ++ [r]) u f a ⟨row, hrow, h1, h2, h3⟩

theorem processChunk_complete (parse : ImapParser) (aid nf : String)
    (server : ImapFolderState) (chunkUids : List Nat) (db : List EmailRow)
    (m : ImapMessage) (hm : m ∈ server.messages) (hu : m.uid ∈ chunkUids)
    (hp : parse m.source m.flags m.uid ≠ none) :
    EmailsRepository.existsByUidAndAccount
      (SyncService.processChunk parse aid nf server chunkUids db).1 m.uid nf aid = true := by
  by_cases hex : EmailsRepository.existsByUidAndAccount db m.uid nf aid = true
  · exact storeExtends_exists_true (processChunk_storeExtends parse aid nf server chunkUids db)
      hex
  · have hexf : EmailsRepository.existsByUidAndAccount db m.uid nf aid = false :=
      Bool.eq_false_iff.2 hex
    have hfetch : m ∈ ImapClientUtil.fetchEmailsByUid server (JsUtil.listMin chunkUids)
        (JsUtil.listMax chunkUids) :=
      mem_fetch_of hm (listMin_le_of_mem hu) (le_listMax_of_mem hu)
    unfold SyncService.processChunk
    dsimp only
    have hlen : 0 < (ImapClientUtil.fetchEmailsByUid server (JsUtil.listMin chunkUids)
        (JsUtil.listMax chunkUids)).length :=
      List.length_pos.2 (List.ne_nil_of_mem hfetch)
    rw [if_pos hlen]
    have hrev : m ∈ (ImapClientUtil.fetchEmailsByUid server (JsUtil.listMin chunkUids)
        (JsUtil.listMax chunkUids)).reverse := List.mem_reverse.2 hfetch
    obtain ⟨row, hrow, hprops⟩ :=
      accumulateEmails_covers parse aid nf db _ m hrev hp hexf
    have hlen2 : 0 < (SyncService.accumulateEmails parse aid nf db
        (ImapClientUtil.fetchEmailsByUid server (JsUtil.listMin chunkUids)
          (JsUtil.listMax chunkUids)).reverse).length :=
      List.length_pos.2 (List.ne_nil_of_mem hrow)
    rw [if_pos hlen2]
    exact createMany_exists_of_row _ db m.uid nf aid ⟨row, hrow, hprops⟩

theorem processChunks_complete (parse : ImapParser) (aid nf : String)
    (server : ImapFolderState) :
    ∀ (chunks : List (List Nat)) (db : List EmailRow) (m : ImapMessage),
      m ∈ server.messages → (∃ c ∈ chunks, m.uid ∈ c) →
      parse m.source m.flags m.uid ≠ none →
      EmailsRepository.existsByUidAndAccount
        (SyncService.processChunks parse aid nf server chunks db).1 m.uid nf aid = true := by
  intro chunks
  induction chunks with
  | nil => intro db m _ hc; simp at hc
  | cons c cs ih =>
    intro db m hm hc hp
    simp only [SyncService.processChunks]
    obtain ⟨c', hc', hu⟩ := hc
    rcases List.mem_cons.1 hc' with rfl | hc'
    · exact storeExtends_exists_true (processChunks_storeExtends parse aid nf server cs _)
        (processChunk_complete parse aid nf server c' db m hm hu hp)
    · exact ih _ m hm ⟨c', hc', hu⟩ hp

theorem processChunk_noop (parse : ImapParser) (aid nf : String)
    (server : ImapFolderState) (chunkUids : List Nat) (db : List EmailRow) (s : Nat)
    (hall : ∀ u ∈ chunkUids, s ≤ u) (hne : chunkUids ≠ [])
    (hs : ∀ m ∈ server.messages, s ≤ m.uid →
      EmailsRepository.existsByUidAndAccount db m.uid nf aid = true ∨
        parse m.source m.flags m.uid = none) :
    SyncService.processChunk parse aid nf server chunkUids db = (db, 0) := by
  unfold SyncService.processChunk
  dsimp only
  have hacc : SyncService.accumulateEmails parse aid nf db
      (ImapClientUtil.fetchEmailsByUid server (JsUtil.listMin chunkUids)
        (JsUtil.listMax chunkUids)).reverse = [] := by
    refine accumulateEmails_nil parse aid nf db _ ?_
    intro m hmem
    obtain ⟨hm, hlo, _⟩ := of_mem_fetch (List.mem_reverse.1 hmem)
    exact hs m hm (Nat.le_trans (le_listMin hall hne) hlo)
  by_cases hl : 0 < (ImapClientUtil.fetchEmailsByUid server (JsUtil.listMin chunkUids)
      (JsUtil.listMax chunkUids)).length
  · rw [if_pos hl, hacc]
    simp
  · rw [if_neg hl]

theorem processChunks_noop (parse : ImapParser) (aid nf : String)
    (server : ImapFolderState) (s : Nat) :
    ∀ (chunks : List (List Nat)) (db : List EmailRow),
      (∀ c ∈ chunks, c ≠ [] ∧ ∀ u ∈ c, s ≤ u) →
      (∀ m ∈ server.messages, s ≤ m.uid →
        EmailsRepository.existsByUidAndAccount db m.uid nf aid = true ∨
          parse m.source m.flags m.uid = none) →
      SyncService.processChunks parse aid nf server chunks db = (db, 0) := by
  intro chunks
  induction chunks with
  | nil => intro db _ _; rfl
  | cons c cs ih =>
    intro db hc hs
    have h1 := hc c (List.mem_cons_self _ _)
    have hchunk := processChunk_noop parse aid nf server c db s h1.2 h1.1 hs
    simp only [SyncService.processChunks, hchunk]
    rw [ih db (fun x hx => hc x (List.mem_cons_of_mem _ hx)) hs]
    rfl

/-! ## Claim C1 — idempotence of an immediate re-sync -/

theorem syncAccount_email_id (a : EmailAccount) (v t : Nat) (f : String) :
    (EmailAccountsRepository.addFolderFlag
      (EmailAccountsRepository.updateSyncState a v t) f).email = a.email ∧
    (EmailAccountsRepository.addFolderFlag
      (EmailAccountsRepository.updateSyncState a v t) f).id = a.id := by
  unfold EmailAccountsRepository.addFolderFlag EmailAccountsRepository.updateSyncState
  split <;> exact ⟨rfl, rfl⟩

theorem fetchNewMessages_nil_of_lt (msgs : List GraphMessage) (t : Nat)
    (h : ∀ m ∈ msgs, m.receivedDateTime < t) :
    GraphClientUtil.fetchNewMessages msgs t = [] := by
  unfold GraphClientUtil.fetchNewMessages GraphClientUtil.serverPages
  have hf : msgs.filter (fun m => decide (t ≤ m.receivedDateTime)) = [] := by
    rw [List.filter_eq_nil_iff]
    intro m hm
    simpa using Nat.not_le.2 (h m hm)
  rw [hf]
  rfl

/-- Claim C1 (amended): re-running `syncFolder` immediately after a
completed sync inserts zero new rows on the IMAP path — the second run
leaves the mirror exactly as the first left it and reports
`emailsSynced = 0` — because every UID the second run enumerates either
already has its `(accountId, uid, folder)` row (the exists-check skips
it, tombstones included) or failed to parse in the first run too.  On
the Microsoft Graph path the re-run inserts zero rows only when every
server message was received STRICTLY before the stored `lastSyncedAt`:
the `receivedDateTime ge` filter re-fetches a message received exactly
at `lastSyncedAt`, and with no per-message existence check it is
re-inserted under a fresh synthetic UID (see the counterexample). -/
theorem c1_amended_resync_idempotence
    (parse : ImapParser) (account : EmailAccount) (server : ImapFolderState)
    (folder : String) (su : Option String) (ff : Option (List String))
    (cs : Nat) (db : List EmailRow) (now1 now2 : Nat) (nf : String)
    (hcs : 1 ≤ cs)
    (hnorm : FolderNormalizerUtil.normalizeFolderName folder
        (some ((ImapProvidersConfig.detectProvider account.email).getD "unknown")) su ff
        = some nf) :
    (∀ o1, SyncService.syncFolderV2 parse account server folder su ff cs db now1 = some o1 →
      ∃ o2, SyncService.syncFolderV2 parse o1.account server folder su ff cs o1.db now2
          = some o2 ∧
        o2.db = o1.db ∧ o2.emailsSynced = 0) ∧
    (∀ (folders : List GraphFolderInfo) (graphServer : String → List GraphMessage)
        (gaccount : EmailAccount) (gfolder : String) (gdb : List EmailRow) (gnow t : Nat),
      gaccount.lastSyncedAt = some t →
      (∀ fo ∈ folders, ∀ m ∈ graphServer fo.id, m.receivedDateTime < t) →
      ∃ o, SyncService.syncFolderGraph folders graphServer gaccount gfolder gdb gnow
          = some o ∧
        o.db = gdb ∧ o.emailsSynced = 0) := by
  constructor
  · intro o1 h1
    simp only [SyncService.syncFolderV2] at h1
    rw [hnorm] at h1
    dsimp only at h1
    by_cases hemp1 : (ImapClientUtil.searchUidsFromStart server
        (EmailsRepository.getHighestUid db account.id nf + 1)).isEmpty = true
    · rw [if_pos hemp1] at h1
      obtain rfl := (Option.some.inj h1).symm
      simp only [SyncService.syncFolderV2]
      rw [hnorm]
      dsimp only
      rw [if_pos hemp1]
      exact ⟨_, rfl, rfl, rfl⟩
    · rw [if_neg hemp1] at h1
      obtain rfl := (Option.some.inj h1).symm
      dsimp only
      have hx1 : StoreExtends db
          (SyncService.processChunks parse account.id nf server
            (JsUtil.chunksOf cs (JsUtil.sortDesc (ImapClientUtil.searchUidsFromStart server
              (EmailsRepository.getHighestUid db account.id nf + 1)))) db).1 :=
        processChunks_storeExtends parse account.id nf server _ db
      have hfields := syncAccount_email_id account
        ((JsUtil.sortDesc (ImapClientUtil.searchUidsFromStart server
          (EmailsRepository.getHighestUid db account.id nf + 1))).headD 0) now1 folder
      simp only [SyncService.syncFolderV2]
      rw [hfields.1, hnorm]
      dsimp only
      rw [hfields.2]
      set db1 := (SyncService.processChunks parse account.id nf server
        (JsUtil.chunksOf cs (JsUtil.sortDesc (ImapClientUtil.searchUidsFromStart server
          (EmailsRepository.getHighestUid db account.id nf + 1)))) db).1 with hdb1
      by_cases hemp2 : (ImapClientUtil.searchUidsFromStart server
          (EmailsRepository.getHighestUid db1 account.id nf + 1)).isEmpty = true
      · rw [if_pos hemp2]
        exact ⟨_, rfl, rfl, rfl⟩
      · rw [if_neg hemp2]
        have hs : ∀ m ∈ server.messages,
            EmailsRepository.getHighestUid db1 account.id nf + 1 ≤ m.uid →
            EmailsRepository.existsByUidAndAccount db1 m.uid nf account.id = true ∨
              parse m.source m.flags m.uid = none := by
          intro m hm hge
          cases hq : parse m.source m.flags m.uid with
          | none => exact Or.inr rfl
          | some p =>
            exfalso
            have hp : parse m.source m.flags m.uid ≠ none := by rw [hq]; simp
            by_cases hcase : EmailsRepository.getHighestUid db account.id nf + 1 ≤ m.uid
            · have hu1 : m.uid ∈ ImapClientUtil.searchUidsFromStart server
                  (EmailsRepository.getHighestUid db account.id nf + 1) :=
                mem_searchUids_of hm hcase
              have hjoin : m.uid ∈ (JsUtil.chunksOf cs (JsUtil.sortDesc
                  (ImapClientUtil.searchUidsFromStart server
                    (EmailsRepository.getHighestUid db account.id nf + 1)))).join := by
                rw [JsUtil.chunksOf, chunksOfFuel_join]
                exact mem_sortDescNat.2 hu1
              obtain ⟨c, hc, hu⟩ := List.mem_join.1 hjoin
              have hex := processChunks_complete parse account.id nf server _ db m hm
                ⟨c, hc, hu⟩ hp
              obtain ⟨r', hr', h1', h2', h3'⟩ := row_of_exists hex
              have hle := uid_le_getHighestUid hr' h3' h2'
              rw [← hdb1] at hle
              omega
            · have hle1 : m.uid ≤ EmailsRepository.getHighestUid db account.id nf := by
                omega
              have hmono := getHighestUid_mono hx1 account.id nf
              omega
        have hchunkprops : ∀ c ∈ JsUtil.chunksOf cs (JsUtil.sortDesc
            (ImapClientUtil.searchUidsFromStart server
              (EmailsRepository.getHighestUid db1 account.id nf + 1))),
            c ≠ [] ∧ ∀ u ∈ c,
              EmailsRepository.getHighestUid db1 account.id nf + 1 ≤ u := by
          intro c hc
          refine ⟨chunksOfFuel_ne_nil hcs _ _ c hc, ?_⟩
          intro u hu
          have hjoin : u ∈ (JsUtil.chunksOf cs (JsUtil.sortDesc
              (ImapClientUtil.searchUidsFromStart server
                (EmailsRepository.getHighestUid db1 account.id nf + 1)))).join :=
            List.mem_join.2 ⟨c, hc, hu⟩
          rw [JsUtil.chunksOf, chunksOfFuel_join] at hjoin
          exact searchUids_ge (mem_sortDescNat.1 hjoin)
        have hnoop := processChunks_noop parse account.id nf server
          (EmailsRepository.getHighestUid db1 account.id nf + 1)
          (JsUtil.chunksOf cs (JsUtil.sortDesc (ImapClientUtil.searchUidsFromStart server
            (EmailsRepository.getHighestUid db1 account.id nf + 1)))) db1 hchunkprops hs
        rw [hnoop]
        exact ⟨_, rfl, rfl, rfl⟩
  · intro folders graphServer gaccount gfolder gdb gnow t hlast hall
    cases hfind : folders.find? (fun f => f.displayName == gfolder) with
    | none =>
      simp only [SyncService.syncFolderGraph, hfind]
      exact ⟨_, rfl, rfl, rfl⟩
    | some fo =>
      have hfo : fo ∈ folders := List.mem_of_find?_eq_some hfind
      have hmsgs : GraphClientUtil.fetchNewMessages (graphServer fo.id)
          (gaccount.lastSyncedAt.getD 0) = [] := by
        rw [hlast]
        exact fetchNewMessages_nil_of_lt _ t (hall fo hfo)
      simp only [SyncService.syncFolderGraph, hfind, hmsgs]
      exact ⟨_, rfl, rfl, rfl⟩

/-- Graph folder listing for the C1 scenarios. -/
def c1Folders : List GraphFolderInfo :=
  [{ id := "fid1", displayName := "INBOX", wellKnownName := none }]

/-- A message received at instant 10 — the same instant the first sync
completes. -/
def c1Msg : GraphMessage :=
  { id := "gm1", receivedDateTime := 10, internetMessageId := some "<g1@x>",
    subject := "hello", bodyContent := "world", bodyContentType := "text",
    fromName := "Ann", fromAddr := some "ann@x.com", toAddrs := ["me@y.com"],
    isRead := false, flagStatus := "notFlagged", hasAttachments := false }

/-- The Graph message store: one folder holding `c1Msg`. -/
def c1GraphServer : String → List GraphMessage :=
  fun fid => if fid == "fid1" then [c1Msg] else []

/-- An OAuth-mode account about to run its first Graph sync. -/
def c1GAccount : EmailAccount :=
  { id := "ga1", userId := "gu1", email := "me@outlook.com", provider := "outlook",
    password := none, accessToken := some "at", refreshToken := some "rt",
    flags := [], lastFetchedUid := none, lastSyncedAt := none }

/-- First Graph sync, completing at wall-clock 10. -/
def c1Run1 : Option SyncOutcome :=
  SyncService.syncFolderGraph c1Folders c1GraphServer c1GAccount "INBOX" [] 10

/-- Immediate re-run at wall-clock 11 on the state the first run left. -/
def c1Run2 : Option SyncOutcome :=
  match c1Run1 with
  | some o1 => SyncService.syncFolderGraph c1Folders c1GraphServer o1.account "INBOX" o1.db 11
  | none => none

set_option maxRecDepth 4000 in
/-- Claim C1 counterexample: on the Microsoft Graph path the first sync
mirrors the single message (1 row) and sets `lastSyncedAt := 10`; the
immediate re-run filters `receivedDateTime ge 10`, re-fetches the same
message — there is no per-message existence check — assigns it the
fresh synthetic UID 2 and inserts a SECOND row for it: the re-run
reports `emailsSynced = 1` and the mirror grows from 1 to 2 rows,
refuting the claimed zero-insert idempotence of the Graph path (the
skip-duplicate on `(accountId, uid, folder)` cannot fire because the
uid is new). -/
theorem c1_counterexample :
    c1Run1.map (fun o => (o.emailsSynced, o.db.length)) = some (1, 1) ∧
    c1Run2.map (fun o => (o.emailsSynced, o.db.length)) = some (1, 2) := by
  refine ⟨by decide, by decide⟩

/-- An IMAP-mode account for the C1 witness. -/
def c1WAccount : EmailAccount :=
  { id := "aw1", userId := "uw1", email := "w@gmail.com", provider := "gmail",
    password := some "enc", accessToken := none, refreshToken := none,
    flags := [], lastFetchedUid := none, lastSyncedAt := none }

/-- The IMAP INBOX for the C1 witness: one message, UID 1. -/
def c1WServer : ImapFolderState :=
  { messages := [{ uid := 1, flags := [], source := "raw1" }], uidNext := 2 }

/-- The outcome the first witness run produces (checked by `decide`). -/
def c1WOutcome : SyncOutcome :=
  { db := [{ id := "", accountId := "aw1", uid := 1, messageId := some "<m@x>",
             fromAddr := "a@x.com", toAddrs := ["b@y.com"], subject := "s", body := "b",
             htmlBody := none, folder := "INBOX", isRead := false, receivedAt := 1,
             deletedAt := none }],
    account := { id := "aw1", userId := "uw1", email := "w@gmail.com", provider := "gmail",
                 password := some "enc", accessToken := none, refreshToken := none,
                 flags := ["INBOX"], lastFetchedUid := some 1, lastSyncedAt := some 10 },
    emailsSynced := 1, highestUid := 1 }

/-- The Graph-side account for the C1 witness: its stored lastSyncedAt
(11) lies strictly after every server message. -/
def c1WGAccount : EmailAccount :=
  { id := "ga1", userId := "gu1", email := "me@outlook.com", provider := "outlook",
    password := none, accessToken := some "at", refreshToken := some "rt",
    flags := [], lastFetchedUid := some 1, lastSyncedAt := some 11 }

/-- Closed instantiation of `c1_amended_resync_idempotence`: the IMAP
re-run over the first run's mirror inserts nothing, and the Graph run
with all messages strictly older than the stored lastSyncedAt inserts
nothing. -/
theorem c1_amended_resync_idempotence_witness :
    (∃ o2, SyncService.syncFolderV2 cParse c1WOutcome.account c1WServer "INBOX" none none 50
        c1WOutcome.db 20 = some o2 ∧ o2.db = c1WOutcome.db ∧ o2.emailsSynced = 0) ∧
    (∃ o, SyncService.syncFolderGraph c1Folders c1GraphServer c1WGAccount "INBOX" [] 20
        = some o ∧ o.db = [] ∧ o.emailsSynced = 0) :=
  ⟨(c1_amended_resync_idempotence cParse c1WAccount c1WServer "INBOX" none none 50 [] 10 20
      "INBOX" (by decide) (by decide)).1 c1WOutcome (by decide),
   (c1_amended_resync_idempotence cParse c1WAccount c1WServer "INBOX" none none 50 [] 10 20
      "INBOX" (by decide) (by decide)).2 c1Folders c1GraphServer c1WGAccount "INBOX" [] 20 11
      (by decide) (by decide)⟩
